import Mathlib

/-!
# binary-edge-render-extract: `create.go`

A shallow embedding of `create.go` (package `main`).  The program reads
`data.json`, a stream of concatenated JSON documents, decodes each document
into a `JSONData` record, projects every record onto a `DataTableRow` and
renders the rows through a fixed `html/template` into `output.html`.

Go `string` values that flow through the program are produced by the JSON
decoder, which always yields well-formed UTF-8, so they are embedded as Lean
`String`s.  The content of the input file is a list of bytes.

What `readJSONData` and `generateHTML` do rests on two packages of the Go
standard library, `encoding/json` (`json.NewDecoder`, `Decoder.Decode`) and
`html/template` (`Parse`, `Execute`).  They are embedded here from their Go
sources as far as `create.go` exercises them: the scanner and the stream
decoder byte by byte, the stores of `Unmarshal` for the one target type
`JSONData`, and the escapers that `html/template` attaches to the actions of
the one template.  Reading the file is taken to deliver all of its bytes, and
creating and writing `output.html` to succeed.
-/

namespace Create

/-! ## Data model (`create.go` lines 11-48) -/

/-- The anonymous struct behind the `headers` key of one redirect. -/
structure Headers where
  Location : String
  Connection : String
deriving DecidableEq, Repr

/-- The anonymous struct behind a `status` key; Go `int` is 64 bits wide and
is only ever copied, so it is embedded as `Int`. -/
structure Status where
  Code : Int
deriving DecidableEq, Repr

/-- One element of `Response.Redirects`. -/
structure Redirect where
  Headers : Headers
  Status : Status
  RedirectURI : String
deriving DecidableEq, Repr

/-- The anonymous struct behind the `rendered` key. -/
structure Rendered where
  Screenshot : String
deriving DecidableEq, Repr

/-- A Go slice value: `elems` is `s[0:len(s)]`; `spare` holds what the
backing array still stores in `s[len(s):cap(s)]`, as far as it was ever
written (the rest of the capacity is zeroed memory). -/
structure Slice (α : Type) where
  elems : List α
  spare : List α
deriving DecidableEq, Repr

/-- The anonymous struct behind the `response` key. -/
structure Response where
  URL : String
  Title : String
  Redirects : Slice Redirect
  Rendered : Rendered
  Path : String
  Status : Status
deriving DecidableEq, Repr

/-- The anonymous struct behind the `data` key. -/
structure Data where
  Response : Response
deriving DecidableEq, Repr

/-- The anonymous struct behind the `result` key. -/
structure Result where
  Data : Data
deriving DecidableEq, Repr

/-- `JSONData represents the structure of your JSON data`. -/
structure JSONData where
  Result : Result
deriving DecidableEq, Repr

/-- `DataTableRow represents a row in the DataTable`. -/
structure DataTableRow where
  URL : String
  Title : String
  Redirects : String
  Screenshot : String
  Path : String
  StatusCode : Int
deriving DecidableEq, Repr

/-! ## `formatRedirects` (`create.go` lines 78-93) -/

/-- The call `fmt.Sprintf("Location: %s\nConnection: %s\n\n", location, connection)`:
the verb `%s` inserts a string operand unchanged. -/
def sprintfLocationConnection (location connection : String) : String :=
  "Location: " ++ location ++ "\nConnection: " ++ connection ++ "\n\n"

/-- The loop of `formatRedirects`: `result` starts empty and every element of
the slice, in index order, appends one formatted piece. -/
def formatRedirects (redirects : List Redirect) : String :=
  redirects.foldl
    (fun result redirect =>
      result ++ sprintfLocationConnection redirect.Headers.Location redirect.Headers.Connection)
    ""

/-! ## The row loop of `main` (`create.go` lines 186-201) -/

/-- The loop of `main` over the decoded records: `rows` starts as the nil
slice and each record appends one row. -/
def mainRows (data : List JSONData) : List DataTableRow :=
  data.foldl
    (fun rows jsonData =>
      let redirects := formatRedirects jsonData.Result.Data.Response.Redirects.elems
      let row : DataTableRow :=
        { URL := jsonData.Result.Data.Response.URL
          Title := jsonData.Result.Data.Response.Title
          Redirects := redirects
          Screenshot := jsonData.Result.Data.Response.Rendered.Screenshot
          Path := jsonData.Result.Data.Response.Path
          StatusCode := jsonData.Result.Data.Response.Status.Code }
      rows ++ [row])
    []

deriving instance DecidableEq for Except

/-! ## `encoding/json`: errors -/

/-- The digits `strconv` uses for `\x` and `\u` escapes. -/
def lowerhex (n : Nat) : Char :=
  if n < 10 then Char.ofNat (48 + n) else Char.ofNat (87 + n)

/-- The text `strconv.Quote(string(c))` puts between its double quotes for a
byte `c` read as a rune below 256, as `quoteChar` uses it (the double quote
itself never reaches this point). -/
def quoteRune (c : UInt8) : String :=
  let r := c.toNat
  if r = 0x5C then "\\\\"
  else if (0x20 ≤ r ∧ r ≤ 0x7E) ∨ (0xA1 ≤ r ∧ r ≠ 0xAD) then String.singleton (Char.ofNat r)
  else if r = 7 then "\\a"
  else if r = 8 then "\\b"
  else if r = 12 then "\\f"
  else if r = 10 then "\\n"
  else if r = 13 then "\\r"
  else if r = 9 then "\\t"
  else if r = 11 then "\\v"
  else if r < 0x20 ∨ r = 0x7F then
    "\\x" ++ String.singleton (lowerhex (r / 16)) ++ String.singleton (lowerhex (r % 16))
  else
    "\\u00" ++ String.singleton (lowerhex (r / 16)) ++ String.singleton (lowerhex (r % 16))

/-- The apostrophe as a one-character string. -/
def apostrophe : String := String.singleton (Char.ofNat 0x27)

/-- `quoteChar` of `scanner.go`: the byte in single quotes, for error messages. -/
def quoteChar (c : UInt8) : String :=
  if c = 0x27 then apostrophe ++ "\\" ++ apostrophe ++ apostrophe
  else if c = 0x22 then apostrophe ++ "\"" ++ apostrophe
  else apostrophe ++ quoteRune c ++ apostrophe

/-- What `UnmarshalTypeError` records: the JSON kind that was met (`Value`)
and the Go type it could not be stored in. -/
structure UnmarshalTypeError where
  Value : String
  GoType : String
deriving DecidableEq, Repr

/-- The error values `(*json.Decoder).Decode` can return when it reads from a
file that delivers all its bytes: `io.EOF`, `io.ErrUnexpectedEOF`, a
`*json.SyntaxError` with its message, or a `*json.UnmarshalTypeError`. -/
inductive DecodeError where
  | EOF
  | ErrUnexpectedEOF
  | SyntaxError (msg : String)
  | UnmarshalType (e : UnmarshalTypeError)
deriving DecidableEq, Repr

/-- The `Error()` method.  For an `UnmarshalTypeError` Go also names the
enclosing struct field, when there is one, between `Go` and `of type`; the
program looks at the message only to compare it with `"EOF"`. -/
def DecodeError.Error : DecodeError → String
  | .EOF => "EOF"
  | .ErrUnexpectedEOF => "unexpected EOF"
  | .SyntaxError msg => msg
  | .UnmarshalType e => "json: cannot unmarshal " ++ e.Value ++ " into Go value of type " ++ e.GoType

/-! ## `encoding/json`: the scanner (`scanner.go`) -/

/-- The opcodes a scanner step returns. -/
inductive Op where
  | scanContinue | scanBeginLiteral | scanBeginObject | scanObjectKey | scanObjectValue
  | scanEndObject | scanBeginArray | scanArrayValue | scanEndArray | scanSkipSpace
  | scanEnd | scanError
deriving DecidableEq, Repr

/-- The entries of the scanner's `parseState` stack. -/
inductive ParseState where
  | parseObjectKey | parseObjectValue | parseArrayValue
deriving DecidableEq, Repr

/-- The state functions the field `scanner.step` can point to. -/
inductive Step where
  | stateBeginValueOrEmpty | stateBeginValue | stateBeginStringOrEmpty | stateBeginString
  | stateEndValue | stateEndTop | stateInString | stateInStringEsc
  | stateInStringEscU | stateInStringEscU1 | stateInStringEscU12 | stateInStringEscU123
  | stateNeg | state1 | state0 | stateDot | stateDot0 | stateE | stateESign | stateE0
  | stateT | stateTr | stateTru | stateF | stateFa | stateFal | stateFals
  | stateN | stateNu | stateNul | stateError
deriving DecidableEq, Repr

/-- The `scanner` struct, without its byte counter (which only feeds the
`Offset` field of a syntax error).  `parseState` keeps the innermost entry at
the head of the list. -/
structure scanner where
  step : Step
  endTop : Bool
  parseState : List ParseState
  err : Option DecodeError
deriving DecidableEq, Repr

def maxNestingDepth : Nat := 10000

/-- The state `scanner.reset` leaves. -/
def scanner.reset : scanner :=
  { step := .stateBeginValue, endTop := false, parseState := [], err := none }

def isSpace (c : UInt8) : Bool :=
  c ≤ 0x20 && (c == 0x20 || c == 0x09 || c == 0x0D || c == 0x0A)

def isDigit (c : UInt8) : Bool := 0x30 ≤ c && c ≤ 0x39

def isHexDigit (c : UInt8) : Bool :=
  (0x30 ≤ c && c ≤ 0x39) || (0x61 ≤ c && c ≤ 0x66) || (0x41 ≤ c && c ≤ 0x46)

/-- `scanner.error`: record an error and switch to the error state. -/
def scanner.error (s : scanner) (c : UInt8) (context : String) : scanner × Op :=
  ({ s with step := .stateError,
            err := some (.SyntaxError ("invalid character " ++ quoteChar c ++ " " ++ context)) },
   .scanError)

def scanner.pushParseState (s : scanner) (c : UInt8) (newParseState : ParseState)
    (successState : Op) : scanner × Op :=
  let s := { s with parseState := newParseState :: s.parseState }
  if s.parseState.length ≤ maxNestingDepth then (s, successState)
  else s.error c "exceeded max depth"

def scanner.popParseState (s : scanner) : scanner :=
  let rest := s.parseState.tail
  if rest.length = 0 then { s with parseState := rest, step := .stateEndTop, endTop := true }
  else { s with parseState := rest, step := .stateEndValue }

def stateEndTop (s : scanner) (c : UInt8) : scanner × Op :=
  if !isSpace c then ((s.error c "after top-level value").1, .scanEnd)
  else (s, .scanEnd)

def stateEndValue (s : scanner) (c : UInt8) : scanner × Op :=
  match s.parseState with
  | [] => stateEndTop { s with step := .stateEndTop, endTop := true } c
  | ps :: rest =>
    if isSpace c then ({ s with step := .stateEndValue }, .scanSkipSpace)
    else
      match ps with
      | .parseObjectKey =>
        if c = 0x3A then -- ':'
          ({ s with parseState := .parseObjectValue :: rest, step := .stateBeginValue },
           .scanObjectKey)
        else s.error c "after object key"
      | .parseObjectValue =>
        if c = 0x2C then -- ','
          ({ s with parseState := .parseObjectKey :: rest, step := .stateBeginString },
           .scanObjectValue)
        else if c = 0x7D then (s.popParseState, .scanEndObject)
        else s.error c "after object key:value pair"
      | .parseArrayValue =>
        if c = 0x2C then ({ s with step := .stateBeginValue }, .scanArrayValue)
        else if c = 0x5D then (s.popParseState, .scanEndArray)
        else s.error c "after array element"

def stateBeginValue (s : scanner) (c : UInt8) : scanner × Op :=
  if isSpace c then (s, .scanSkipSpace)
  else if c = 0x7B then -- opening brace
    { s with step := .stateBeginStringOrEmpty }.pushParseState c .parseObjectKey .scanBeginObject
  else if c = 0x5B then -- '['
    { s with step := .stateBeginValueOrEmpty }.pushParseState c .parseArrayValue .scanBeginArray
  else if c = 0x22 then ({ s with step := .stateInString }, .scanBeginLiteral)
  else if c = 0x2D then ({ s with step := .stateNeg }, .scanBeginLiteral)
  else if c = 0x30 then ({ s with step := .state0 }, .scanBeginLiteral)
  else if c = 0x74 then ({ s with step := .stateT }, .scanBeginLiteral)
  else if c = 0x66 then ({ s with step := .stateF }, .scanBeginLiteral)
  else if c = 0x6E then ({ s with step := .stateN }, .scanBeginLiteral)
  else if 0x31 ≤ c ∧ c ≤ 0x39 then ({ s with step := .state1 }, .scanBeginLiteral)
  else s.error c "looking for beginning of value"

def stateBeginValueOrEmpty (s : scanner) (c : UInt8) : scanner × Op :=
  if isSpace c then (s, .scanSkipSpace)
  else if c = 0x5D then stateEndValue s c
  else stateBeginValue s c

def stateBeginString (s : scanner) (c : UInt8) : scanner × Op :=
  if isSpace c then (s, .scanSkipSpace)
  else if c = 0x22 then ({ s with step := .stateInString }, .scanBeginLiteral)
  else s.error c "looking for beginning of object key string"

def stateBeginStringOrEmpty (s : scanner) (c : UInt8) : scanner × Op :=
  if isSpace c then (s, .scanSkipSpace)
  else if c = 0x7D then
    stateEndValue { s with parseState := .parseObjectValue :: s.parseState.tail } c
  else stateBeginString s c

def stateInString (s : scanner) (c : UInt8) : scanner × Op :=
  if c = 0x22 then ({ s with step := .stateEndValue }, .scanContinue)
  else if c = 0x5C then ({ s with step := .stateInStringEsc }, .scanContinue)
  else if c < 0x20 then s.error c "in string literal"
  else (s, .scanContinue)

def stateInStringEsc (s : scanner) (c : UInt8) : scanner × Op :=
  if c = 0x62 ∨ c = 0x66 ∨ c = 0x6E ∨ c = 0x72 ∨ c = 0x74 ∨ c = 0x5C ∨ c = 0x2F ∨ c = 0x22 then
    ({ s with step := .stateInString }, .scanContinue)
  else if c = 0x75 then ({ s with step := .stateInStringEscU }, .scanContinue)
  else s.error c "in string escape code"

def stateInStringEscUn (next : Step) (s : scanner) (c : UInt8) : scanner × Op :=
  if isHexDigit c then ({ s with step := next }, .scanContinue)
  else s.error c "in \\u hexadecimal character escape"

def state0 (s : scanner) (c : UInt8) : scanner × Op :=
  if c = 0x2E then ({ s with step := .stateDot }, .scanContinue)
  else if c = 0x65 ∨ c = 0x45 then ({ s with step := .stateE }, .scanContinue)
  else stateEndValue s c

def state1 (s : scanner) (c : UInt8) : scanner × Op :=
  if isDigit c then ({ s with step := .state1 }, .scanContinue)
  else state0 s c

def stateNeg (s : scanner) (c : UInt8) : scanner × Op :=
  if c = 0x30 then ({ s with step := .state0 }, .scanContinue)
  else if 0x31 ≤ c ∧ c ≤ 0x39 then ({ s with step := .state1 }, .scanContinue)
  else s.error c "in numeric literal"

def stateDot (s : scanner) (c : UInt8) : scanner × Op :=
  if isDigit c then ({ s with step := .stateDot0 }, .scanContinue)
  else s.error c "after decimal point in numeric literal"

def stateDot0 (s : scanner) (c : UInt8) : scanner × Op :=
  if isDigit c then (s, .scanContinue)
  else if c = 0x65 ∨ c = 0x45 then ({ s with step := .stateE }, .scanContinue)
  else stateEndValue s c

def stateESign (s : scanner) (c : UInt8) : scanner × Op :=
  if isDigit c then ({ s with step := .stateE0 }, .scanContinue)
  else s.error c "in exponent of numeric literal"

def stateE (s : scanner) (c : UInt8) : scanner × Op :=
  if c = 0x2B ∨ c = 0x2D then ({ s with step := .stateESign }, .scanContinue)
  else stateESign s c

def stateE0 (s : scanner) (c : UInt8) : scanner × Op :=
  if isDigit c then (s, .scanContinue)
  else stateEndValue s c

/-- The states inside `true`, `false` and `null`: the one byte `want` moves on
to `next`, anything else is an error in the literal `name`. -/
def stateLiteral (want : UInt8) (next : Step) (name : String) (s : scanner) (c : UInt8) :
    scanner × Op :=
  if c = want then ({ s with step := next }, .scanContinue)
  else s.error c ("in literal " ++ name ++ " (expecting " ++ quoteChar want ++ ")")

/-- The call `s.step(s, c)`: dispatch on the current state function. -/
def scanner.doStep (s : scanner) (c : UInt8) : scanner × Op :=
  match s.step with
  | .stateBeginValueOrEmpty => stateBeginValueOrEmpty s c
  | .stateBeginValue => stateBeginValue s c
  | .stateBeginStringOrEmpty => stateBeginStringOrEmpty s c
  | .stateBeginString => stateBeginString s c
  | .stateEndValue => stateEndValue s c
  | .stateEndTop => stateEndTop s c
  | .stateInString => stateInString s c
  | .stateInStringEsc => stateInStringEsc s c
  | .stateInStringEscU => stateInStringEscUn .stateInStringEscU1 s c
  | .stateInStringEscU1 => stateInStringEscUn .stateInStringEscU12 s c
  | .stateInStringEscU12 => stateInStringEscUn .stateInStringEscU123 s c
  | .stateInStringEscU123 => stateInStringEscUn .stateInString s c
  | .stateNeg => stateNeg s c
  | .state1 => state1 s c
  | .state0 => state0 s c
  | .stateDot => stateDot s c
  | .stateDot0 => stateDot0 s c
  | .stateE => stateE s c
  | .stateESign => stateESign s c
  | .stateE0 => stateE0 s c
  | .stateT => stateLiteral 0x72 .stateTr "true" s c
  | .stateTr => stateLiteral 0x75 .stateTru "true" s c
  | .stateTru => stateLiteral 0x65 .stateEndValue "true" s c
  | .stateF => stateLiteral 0x61 .stateFa "false" s c
  | .stateFa => stateLiteral 0x6C .stateFal "false" s c
  | .stateFal => stateLiteral 0x73 .stateFals "false" s c
  | .stateFals => stateLiteral 0x65 .stateEndValue "false" s c
  | .stateN => stateLiteral 0x75 .stateNu "null" s c
  | .stateNu => stateLiteral 0x6C .stateNul "null" s c
  | .stateNul => stateLiteral 0x6C .stateEndValue "null" s c
  | .stateError => (s, .scanError)

/-! ## `encoding/json`: the stream decoder (`stream.go`) -/

/-- What `Decoder.readValue` returns: the length of the next value in the
buffer, or an error. -/
inductive ReadValue where
  | value (n : Nat)
  | fail (err : DecodeError)
deriving DecidableEq, Repr

def nonSpace (b : List UInt8) : Bool := b.any fun c => !isSpace c

/-- The scan of `Decoder.readValue` over the bytes from `dec.scanp` on.
`pending` is all of them, `n` counts the bytes already passed, and the second
list is what is left to scan.  Refilling the buffer from the file does not
show: the scan goes on byte by byte until the file is exhausted, and only then
is the read error `io.EOF` looked at. -/
def readValueScan (pending : List UInt8) : scanner → List UInt8 → Nat → ReadValue
  | s, [], n =>
    if (s.doStep 0x20).2 = .scanEnd then .value n
    else if nonSpace pending then .fail .ErrUnexpectedEOF
    else .fail .EOF
  | s, c :: cs, n =>
    match s.doStep c with
    | (_, .scanEnd) => .value n
    | (s1, .scanEndObject) =>
      if (stateEndValue s1 0x20).2 = .scanEnd then .value (n + 1)
      else readValueScan pending s1 cs (n + 1)
    | (s1, .scanEndArray) =>
      if (stateEndValue s1 0x20).2 = .scanEnd then .value (n + 1)
      else readValueScan pending s1 cs (n + 1)
    | (s1, .scanError) => .fail (s1.err.getD (.SyntaxError ""))
    | (s1, _) => readValueScan pending s1 cs (n + 1)

def readValue (pending : List UInt8) : ReadValue :=
  readValueScan pending scanner.reset pending 0


/-! ## `encoding/json`: `Valid` (`scanner.go`) -/

/-- `scanner.eof`: the opcode at the end of the input, `scanEnd` if a complete
top-level value has been read. -/
def scanner.eof (s : scanner) : scanner × Op :=
  if s.err.isSome then (s, .scanError)
  else if s.endTop then (s, .scanEnd)
  else
    let s1 := (s.doStep 0x20).1
    if s1.endTop then (s1, .scanEnd)
    else
      ({ s1 with err := some (s1.err.getD (.SyntaxError "unexpected end of JSON input")) },
       .scanError)

/-- The loop of `checkValid` from scanner state `s`: whether the scanner goes
through all the bytes without an error and ends on a complete value. -/
def checkValidFrom : scanner → List UInt8 → Bool
  | s, [] => s.eof.2 != .scanError
  | s, c :: cs =>
    match s.doStep c with
    | (_, .scanError) => false
    | (s1, _) => checkValidFrom s1 cs

/-- `json.Valid(data)`: whether `data` is a valid JSON encoding.  `create.go`
does not call it; it says here what a syntactically valid document is. -/
def Valid (data : List UInt8) : Bool := checkValidFrom scanner.reset data

/-! ## `encoding/json`: decoding one value (`decode.go`) -/

/-- A JSON value as `decode.go` walks it.  A number keeps its literal text,
which is what `literalStore` hands to `strconv.ParseInt`; a string is already
unquoted. -/
inductive JValue where
  | null
  | bool (b : Bool)
  | number (item : List UInt8)
  | string (s : String)
  | array (elems : List JValue)
  | object (members : List (String × JValue))

/-- `utf8.DecodeRune`: the first rune of `p` and its width in bytes;
`(RuneError, 1)` for an invalid or short encoding. -/
def decodeRune (p : List UInt8) : Nat × Nat :=
  match p with
  | [] => (0xFFFD, 0)
  | p0 :: rest =>
    let b0 := p0.toNat
    if b0 < 0x80 then (b0, 1)
    else if b0 < 0xC2 ∨ 0xF4 < b0 then (0xFFFD, 1)
    else
      let lo := if b0 = 0xE0 then 0xA0 else if b0 = 0xF0 then 0x90 else 0x80
      let hi := if b0 = 0xED then 0x9F else if b0 = 0xF4 then 0x8F else 0xBF
      let cont (b : UInt8) : Bool := 0x80 ≤ b.toNat ∧ b.toNat ≤ 0xBF
      match rest with
      | [] => (0xFFFD, 1)
      | b1 :: rest1 =>
        if b1.toNat < lo ∨ hi < b1.toNat then (0xFFFD, 1)
        else if b0 < 0xE0 then ((b0 % 32) * 64 + b1.toNat % 64, 2)
        else
          match rest1 with
          | [] => (0xFFFD, 1)
          | b2 :: rest2 =>
            if !cont b2 then (0xFFFD, 1)
            else if b0 < 0xF0 then
              ((b0 % 16) * 4096 + (b1.toNat % 64) * 64 + b2.toNat % 64, 3)
            else
              match rest2 with
              | [] => (0xFFFD, 1)
              | b3 :: _ =>
                if !cont b3 then (0xFFFD, 1)
                else
                  ((b0 % 8) * 262144 + (b1.toNat % 64) * 4096 + (b2.toNat % 64) * 64
                    + b3.toNat % 64, 4)

/-- The value of one hexadecimal digit, if it is one. -/
def hexValue (c : UInt8) : Option Nat :=
  if 0x30 ≤ c ∧ c ≤ 0x39 then some (c.toNat - 0x30)
  else if 0x61 ≤ c ∧ c ≤ 0x66 then some (c.toNat - 0x61 + 10)
  else if 0x41 ≤ c ∧ c ≤ 0x46 then some (c.toNat - 0x41 + 10)
  else none

/-- `getu4`: the code unit of a `\uXXXX` escape at the start of `s`, or `none`
(Go returns -1). -/
def getu4 (s : List UInt8) : Option Nat :=
  match s with
  | b :: u :: h1 :: h2 :: h3 :: h4 :: _ =>
    if b = 0x5C ∧ u = 0x75 then
      match hexValue h1, hexValue h2, hexValue h3, hexValue h4 with
      | some a, some b, some c, some d => some (a * 4096 + b * 256 + c * 16 + d)
      | _, _, _, _ => none
    else none
  | _ => none

/-- `utf16.DecodeRune` on the result of two `getu4` calls: the code point of a
surrogate pair, or U+FFFD when the two do not form one. -/
def utf16DecodeRune (r1 : Nat) (r2 : Option Nat) : Nat :=
  match r2 with
  | some r2 =>
    if 0xD800 ≤ r1 ∧ r1 < 0xDC00 ∧ 0xDC00 ≤ r2 ∧ r2 < 0xE000 then
      (r1 - 0xD800) * 1024 + (r2 - 0xDC00) + 0x10000
    else 0xFFFD
  | none => 0xFFFD

/-- The loop of `unquoteBytes` over the bytes between the two quotes of a
string literal: escapes are replaced and the rest is coerced to well-formed
UTF-8, every byte that does not decode becoming U+FFFD.  Go gives up
(`ok = false`) on a quote, a control character or a bad escape; the scanner has
already rejected those, and the loop here stops at them. -/
def unquoteLoop : Nat → List UInt8 → List Char
  | 0, _ => []
  | _ + 1, [] => []
  | fuel + 1, c :: rest =>
    if c = 0x5C then
      match rest with
      | [] => []
      | e :: rest1 =>
        if e = 0x22 ∨ e = 0x5C ∨ e = 0x2F ∨ e = 0x27 then
          Char.ofNat e.toNat :: unquoteLoop fuel rest1
        else if e = 0x62 then Char.ofNat 8 :: unquoteLoop fuel rest1
        else if e = 0x66 then Char.ofNat 12 :: unquoteLoop fuel rest1
        else if e = 0x6E then Char.ofNat 10 :: unquoteLoop fuel rest1
        else if e = 0x72 then Char.ofNat 13 :: unquoteLoop fuel rest1
        else if e = 0x74 then Char.ofNat 9 :: unquoteLoop fuel rest1
        else if e = 0x75 then
          match getu4 (c :: rest) with
          | none => []
          | some rr =>
            let after := rest.drop 5
            if 0xD800 ≤ rr ∧ rr < 0xE000 then
              let dec := utf16DecodeRune rr (getu4 after)
              if dec ≠ 0xFFFD then Char.ofNat dec :: unquoteLoop fuel (after.drop 6)
              else Char.ofNat 0xFFFD :: unquoteLoop fuel after
            else Char.ofNat rr :: unquoteLoop fuel after
        else []
    else if c = 0x22 ∨ c < 0x20 then []
    else if c < 0x80 then Char.ofNat c.toNat :: unquoteLoop fuel rest
    else
      let (rr, size) := decodeRune (c :: rest)
      Char.ofNat rr :: unquoteLoop fuel ((c :: rest).drop size)

/-- `unquoteBytes`, applied to the inside of a string literal. -/
def unquote (inner : List UInt8) : String :=
  String.mk (unquoteLoop inner.length inner)

/-- The bytes `rescanLiteral` passes over after the opening quote of a string:
the inside of the literal, and what follows its closing quote. -/
def spanString : List UInt8 → List UInt8 × List UInt8
  | [] => ([], [])
  | c :: cs =>
    if c = 0x22 then ([], cs)
    else if c = 0x5C then
      match cs with
      | [] => ([c], [])
      | e :: cs2 =>
        let (a, r) := spanString cs2
        (c :: e :: a, r)
    else
      let (a, r) := spanString cs
      (c :: a, r)

/-- The bytes `rescanLiteral` takes for a number: digits, `.`, `e`, `E`, `+`, `-`. -/
def isNumberByte (c : UInt8) : Bool :=
  isDigit c || c == 0x2E || c == 0x65 || c == 0x45 || c == 0x2B || c == 0x2D

def skipSpace : List UInt8 → List UInt8
  | [] => []
  | c :: cs => if isSpace c then skipSpace cs else c :: cs

mutual

/-- The syntax tree of the JSON value at the start of the bytes, and the bytes
after it.  `decode.go` walks the value with the scanner and stores into the
target as it goes; here the walk is split into this tree and the stores below.
The bytes come from `readValue`, which has checked them, so the places where
the text is not JSON (a panic with `phasePanicMsg` in Go) are not reached; the
functions stop there.  The first argument bounds the recursion. -/
def parseValue : Nat → List UInt8 → JValue × List UInt8
  | 0, bs => (.null, bs)
  | fuel + 1, bs =>
    match skipSpace bs with
    | [] => (.null, [])
    | c :: rest =>
      if c = 0x7B then
        let (ms, r) := parseMembers fuel rest
        (.object ms, r)
      else if c = 0x5B then
        let (xs, r) := parseElems fuel rest
        (.array xs, r)
      else if c = 0x22 then
        let (inner, r) := spanString rest
        (.string (unquote inner), r)
      else if c = 0x6E then (.null, rest.drop 3)
      else if c = 0x74 then (.bool true, rest.drop 3)
      else if c = 0x66 then (.bool false, rest.drop 4)
      else (.number (c :: rest.takeWhile isNumberByte), rest.dropWhile isNumberByte)

/-- The elements of an array, from after `[` or after an element. -/
def parseElems : Nat → List UInt8 → List JValue × List UInt8
  | 0, bs => ([], bs)
  | fuel + 1, bs =>
    match skipSpace bs with
    | [] => ([], [])
    | c :: rest =>
      if c = 0x5D then ([], rest)
      else
        let (v, r) := parseValue fuel (if c = 0x2C then rest else c :: rest)
        let (vs, r2) := parseElems fuel r
        (v :: vs, r2)

/-- The members of an object, from after the opening brace or after a member. -/
def parseMembers : Nat → List UInt8 → List (String × JValue) × List UInt8
  | 0, bs => ([], bs)
  | fuel + 1, bs =>
    match skipSpace bs with
    | [] => ([], [])
    | c :: rest =>
      if c = 0x7D then ([], rest)
      else
        match skipSpace (if c = 0x2C then rest else c :: rest) with
        | [] => ([], [])
        | q :: rest1 =>
          if q = 0x22 then
            let (inner, r) := spanString rest1
            match skipSpace r with
            | [] => ([], [])
            | colon :: r1 =>
              if colon = 0x3A then
                let (v, r2) := parseValue fuel r1
                let (ms, r3) := parseMembers fuel r2
                ((unquote inner, v) :: ms, r3)
              else ([], colon :: r1)
          else ([], q :: rest1)

end

/-- The tree of the one value that the bytes of a `readValue` item hold. -/
def parseJSON (data : List UInt8) : JValue :=
  (parseValue (data.length + 1) data).1


/-- `strconv.ParseInt(s, 10, 64)`: an optional sign, then decimal digits only,
and the value must fit in 64 bits; `none` stands for any error. -/
def ParseInt (s : List UInt8) : Option Int :=
  let neg := s.head? = some 0x2D
  let digits := if s.head? = some 0x2B ∨ s.head? = some 0x2D then s.tail else s
  if digits = [] ∨ ¬ digits.all isDigit then none
  else
    let un : Nat := digits.foldl (fun n c => 10 * n + (c.toNat - 0x30)) 0
    if ¬ neg ∧ un ≥ 2 ^ 63 then none
    else if neg ∧ un > 2 ^ 63 then none
    else some (if neg then -(un : Int) else (un : Int))

/-- The conversion `string(item)` for the bytes of a number literal. -/
def bytesToString (item : List UInt8) : String :=
  String.mk (item.map fun c => Char.ofNat c.toNat)

/-- `foldRune` of `fold.go`: the smallest rune of the simple case-folding
orbit.  Only the orbits that reach ASCII matter for the field names of
`JSONData`: a lower-case ASCII letter folds to upper case, U+017F (long s) to
`S` and U+212A (Kelvin sign) to `K`; no other rune folds to an ASCII letter and
such runes are left as they are here. -/
def foldRune (r : Char) : Char :=
  if 0x61 ≤ r.toNat ∧ r.toNat ≤ 0x7A then Char.ofNat (r.toNat - 0x20)
  else if r.toNat = 0x17F then Char.ofNat 0x53
  else if r.toNat = 0x212A then Char.ofNat 0x4B
  else r

def foldName (s : String) : List Char := s.data.map foldRune

/-- The field lookup of `decodeState.object` for one field: the key names the
field exactly, or else its folded name is that of the field.  (No two fields of
one struct of `JSONData` share a folded name.) -/
def fieldMatch (key name : String) : Bool :=
  key == name || foldName key == foldName name

/-- The field `decodeState.savedError`. -/
abbrev SavedError := Option UnmarshalTypeError

/-- `decodeState.saveError`: only the first error is kept. -/
def saveError (saved : SavedError) (Value GoType : String) : SavedError :=
  match saved with
  | none => some { Value := Value, GoType := GoType }
  | some e => some e

/-- The `Value` that an `UnmarshalTypeError` reports for a JSON value. -/
def JValue.kind : JValue → String
  | .null => "null"
  | .bool _ => "bool"
  | .number _ => "number"
  | .string _ => "string"
  | .array _ => "array"
  | .object _ => "object"

/-- `decodeState.value` with a target of kind `string`: a string is stored,
`null` leaves the target alone, anything else is a type error that leaves the
target alone. -/
def valueString (v : JValue) (target : String) (saved : SavedError) : String × SavedError :=
  match v with
  | .string s => (s, saved)
  | .null => (target, saved)
  | .bool _ => (target, saveError saved "bool" "string")
  | .number _ => (target, saveError saved "number" "string")
  | .array _ => (target, saveError saved "array" "string")
  | .object _ => (target, saveError saved "object" "string")

/-- `decodeState.value` with a target of kind `int`. -/
def valueInt (v : JValue) (target : Int) (saved : SavedError) : Int × SavedError :=
  match v with
  | .number item =>
    match ParseInt item with
    | some n => (n, saved)
    | none => (target, saveError saved ("number " ++ bytesToString item) "int")
  | .null => (target, saved)
  | .bool _ => (target, saveError saved "bool" "int")
  | .string _ => (target, saveError saved "string" "int")
  | .array _ => (target, saveError saved "array" "int")
  | .object _ => (target, saveError saved "object" "int")

/-- The loop of `decodeState.object` over the members of a JSON object when
the target is a struct: `field` stores the value of one member into the field
its key names, if any. -/
def objectFields {α : Type} (field : String → JValue → α → SavedError → α × SavedError)
    (members : List (String × JValue)) (target : α) (saved : SavedError) : α × SavedError :=
  members.foldl (fun acc m => field m.1 m.2 acc.1 acc.2) (target, saved)

/-- `decodeState.value` with a target of kind `struct`: an object goes through
its members, `null` leaves the target alone, anything else is a type error.
`GoType` names the target type in the error. -/
def valueStruct {α : Type} (GoType : String)
    (field : String → JValue → α → SavedError → α × SavedError)
    (v : JValue) (target : α) (saved : SavedError) : α × SavedError :=
  match v with
  | .object members => objectFields field members target saved
  | .null => (target, saved)
  | .bool _ => (target, saveError saved "bool" GoType)
  | .number _ => (target, saveError saved "number" GoType)
  | .string _ => (target, saveError saved "string" GoType)
  | .array _ => (target, saveError saved "array" GoType)

def fieldHeaders (key : String) (v : JValue) (t : Headers) (saved : SavedError) :
    Headers × SavedError :=
  if fieldMatch key "location" then
    let r := valueString v t.Location saved
    ({ t with Location := r.1 }, r.2)
  else if fieldMatch key "connection" then
    let r := valueString v t.Connection saved
    ({ t with Connection := r.1 }, r.2)
  else (t, saved)

def fieldStatus (key : String) (v : JValue) (t : Status) (saved : SavedError) :
    Status × SavedError :=
  if fieldMatch key "code" then
    let r := valueInt v t.Code saved
    ({ t with Code := r.1 }, r.2)
  else (t, saved)

def fieldRedirect (key : String) (v : JValue) (t : Redirect) (saved : SavedError) :
    Redirect × SavedError :=
  if fieldMatch key "headers" then
    let r := valueStruct "struct headers" fieldHeaders v t.Headers saved
    ({ t with Headers := r.1 }, r.2)
  else if fieldMatch key "status" then
    let r := valueStruct "struct status" fieldStatus v t.Status saved
    ({ t with Status := r.1 }, r.2)
  else if fieldMatch key "redirect_uri" then
    let r := valueString v t.RedirectURI saved
    ({ t with RedirectURI := r.1 }, r.2)
  else (t, saved)

def fieldRendered (key : String) (v : JValue) (t : Rendered) (saved : SavedError) :
    Rendered × SavedError :=
  if fieldMatch key "screenshot" then
    let r := valueString v t.Screenshot saved
    ({ t with Screenshot := r.1 }, r.2)
  else (t, saved)

/-- The zero value of the element type of `Redirects`. -/
def Redirect.zero : Redirect :=
  { Headers := { Location := "", Connection := "" }, Status := { Code := 0 }, RedirectURI := "" }

/-- The loop of `decodeState.array` over the elements of a JSON array when the
target is the `Redirects` slice.  `backing` is what the backing array holds
from the current index on: element `i` is decoded into `v.Index(i)`, which
still has whatever was stored there before (the slice is only lengthened, not
cleared), or the zero value past everything that was ever stored. -/
def arrayElems : List JValue → List Redirect → SavedError → List Redirect × SavedError
  | [], backing, saved => (backing, saved)
  | x :: xs, backing, saved =>
    let r := valueStruct "struct redirect" fieldRedirect x (backing.headD Redirect.zero) saved
    let rs := arrayElems xs backing.tail r.2
    (r.1 :: rs.1, rs.2)

/-- `decodeState.value` with the `Redirects` slice as target.  `null` sets the
slice to nil.  An array decodes element by element into the backing array and
then sets the length to the number of elements (an empty array installs a new
empty slice).  Anything else is a type error. -/
def valueRedirects (v : JValue) (target : Slice Redirect) (saved : SavedError) :
    Slice Redirect × SavedError :=
  match v with
  | .null => ({ elems := [], spare := [] }, saved)
  | .array xs =>
    if xs.isEmpty then ({ elems := [], spare := [] }, saved)
    else
      let r := arrayElems xs (target.elems ++ target.spare) saved
      ({ elems := r.1.take xs.length, spare := r.1.drop xs.length }, r.2)
  | .bool _ => (target, saveError saved "bool" "[]struct redirect")
  | .number _ => (target, saveError saved "number" "[]struct redirect")
  | .string _ => (target, saveError saved "string" "[]struct redirect")
  | .object _ => (target, saveError saved "object" "[]struct redirect")

def fieldResponse (key : String) (v : JValue) (t : Response) (saved : SavedError) :
    Response × SavedError :=
  if fieldMatch key "url" then
    let r := valueString v t.URL saved
    ({ t with URL := r.1 }, r.2)
  else if fieldMatch key "title" then
    let r := valueString v t.Title saved
    ({ t with Title := r.1 }, r.2)
  else if fieldMatch key "redirects" then
    let r := valueRedirects v t.Redirects saved
    ({ t with Redirects := r.1 }, r.2)
  else if fieldMatch key "rendered" then
    let r := valueStruct "struct rendered" fieldRendered v t.Rendered saved
    ({ t with Rendered := r.1 }, r.2)
  else if fieldMatch key "path" then
    let r := valueString v t.Path saved
    ({ t with Path := r.1 }, r.2)
  else if fieldMatch key "status" then
    let r := valueStruct "struct status" fieldStatus v t.Status saved
    ({ t with Status := r.1 }, r.2)
  else (t, saved)

def fieldData (key : String) (v : JValue) (t : Data) (saved : SavedError) :
    Data × SavedError :=
  if fieldMatch key "response" then
    let r := valueStruct "struct response" fieldResponse v t.Response saved
    ({ t with Response := r.1 }, r.2)
  else (t, saved)

def fieldResult (key : String) (v : JValue) (t : Result) (saved : SavedError) :
    Result × SavedError :=
  if fieldMatch key "data" then
    let r := valueStruct "struct data" fieldData v t.Data saved
    ({ t with Data := r.1 }, r.2)
  else (t, saved)

def fieldJSONData (key : String) (v : JValue) (t : JSONData) (saved : SavedError) :
    JSONData × SavedError :=
  if fieldMatch key "result" then
    let r := valueStruct "struct result" fieldResult v t.Result saved
    ({ t with Result := r.1 }, r.2)
  else (t, saved)

/-- The zero value of `JSONData`, as `var jsonData JSONData` declares it. -/
def JSONData.zero : JSONData :=
  { Result := { Data := { Response :=
      { URL := "", Title := "", Redirects := { elems := [], spare := [] },
        Rendered := { Screenshot := "" }, Path := "", Status := { Code := 0 } } } } }

/-- The stores of `decodeState.unmarshal` for the value `v` into a `JSONData`
that starts as `target`: the record after the call and the saved error. -/
def unmarshalValue (v : JValue) (target : JSONData) : JSONData × SavedError :=
  valueStruct "main.JSONData" fieldJSONData v target none

/-- `decodeState.unmarshal` on the bytes of one value into a zero `JSONData`:
the filled record, or the first type error (the record is then left partly
filled, and the caller drops it). -/
def unmarshal (data : List UInt8) : Except UnmarshalTypeError JSONData :=
  match (unmarshalValue (parseJSON data) JSONData.zero).2 with
  | none => .ok (unmarshalValue (parseJSON data) JSONData.zero).1
  | some e => .error e

/-- The `Decoder` struct: `input` is `buf[scanp:]` followed by what the file has
not delivered yet, `err` is the field `err`. -/
structure Decoder where
  input : List UInt8
  err : Option DecodeError
deriving DecidableEq, Repr

/-- `json.NewDecoder(file)` for a file with the given content. -/
def NewDecoder (content : List UInt8) : Decoder :=
  { input := content, err := none }

/-- `(*Decoder).Decode(&jsonData)` with `jsonData` a fresh zero `JSONData`: the
decoder after the call, and the record or the error returned.  An error kept in
`dec.err` is returned at once.  An error of `readValue` is kept in `dec.err`;
an error of `unmarshal` is not, and the value has been consumed. -/
def Decoder.Decode (dec : Decoder) : Decoder × Except DecodeError JSONData :=
  match dec.err with
  | some err => (dec, .error err)
  | none =>
    match readValue dec.input with
    | .fail err => ({ dec with err := some err }, .error err)
    | .value n =>
      match unmarshal (dec.input.take n) with
      | .ok jsonData => ({ dec with input := dec.input.drop n }, .ok jsonData)
      | .error e => ({ dec with input := dec.input.drop n }, .error (.UnmarshalType e))

/-! ## `readJSONData` (`create.go` lines 50-76) -/

/-- The `for` loop of `readJSONData` over a decoder of any kind whose `Decode`
has the given behaviour: an error with the message `"EOF"` leaves the loop, any
other error is logged (which changes nothing here) and the loop goes on, a
decoded record is appended.  `fuel` bounds the number of iterations: `none`
means the loop is still running after `fuel` iterations, `some data` that it
left through `break` with `data`. -/
def decodeLoop {δ : Type} (Decode : δ → δ × Except DecodeError JSONData) :
    Nat → δ → List JSONData → Option (List JSONData)
  | 0, _, _ => none
  | fuel + 1, decoder, data =>
    match Decode decoder with
    | (decoder1, .error err) =>
      if err.Error = "EOF" then some data
      else decodeLoop Decode fuel decoder1 data
    | (decoder1, .ok jsonData) => decodeLoop Decode fuel decoder1 (data ++ [jsonData])

/-- `readJSONData(filePath)`.  `file` is what `os.Open(filePath)` gives: the
content of the file, or the text of the error.  The result is `none` when the
loop is still running after `fuel` iterations, and otherwise the pair
`(data, err)` that the function returns, as an `Except`. -/
def readJSONData (file : Except String (List UInt8)) (fuel : Nat) :
    Option (Except String (List JSONData)) :=
  match file with
  | .error err => some (.error ("failed to open file: " ++ err))
  | .ok content =>
    match decodeLoop Decoder.Decode fuel (NewDecoder content) [] with
    | none => none
    | some data => some (.ok data)

/-- The UTF-8 bytes of a string. -/
def utf8 (s : String) : List UInt8 := s.data.flatMap String.utf8EncodeChar

/-! ## `html/template`: the escapers the template's actions go through -/

/-- The table `htmlReplacementTable` of `html.go`, as a function: the text that
replaces a rune, or the rune itself where the table has no entry. -/
def htmlReplacement (r : Char) : String :=
  if r.toNat = 0 then String.singleton (Char.ofNat 0xFFFD)
  else if r.toNat = 0x22 then "&#34;"
  else if r.toNat = 0x26 then "&amp;"
  else if r.toNat = 0x27 then "&#39;"
  else if r.toNat = 0x2B then "&#43;"
  else if r.toNat = 0x3C then "&lt;"
  else if r.toNat = 0x3E then "&gt;"
  else String.singleton r

/-- `htmlReplacer(s, htmlReplacementTable, true)`: every rune that has an entry
in the table is replaced, all others are copied. -/
def htmlReplacer (s : String) : String :=
  String.mk (s.data.flatMap fun r => (htmlReplacement r).data)

/-- `rcdataEscaper` on a plain string (the pipeline of an action inside
`<textarea>`). -/
def rcdataEscaper (s : String) : String := htmlReplacer s

/-- `attrEscaper` on a plain string (the last stage of an action inside a
quoted attribute value). -/
def attrEscaper (s : String) : String := htmlReplacer s

/-- `htmlEscaper` on a plain string (the pipeline of an action in element
content). -/
def htmlEscaper (s : String) : String := htmlReplacer s

/-- `strings.EqualFold(protocol, name)` for an ASCII `name`. -/
def equalFold (protocol name : String) : Bool :=
  foldName protocol == foldName name

/-- `isSafeURL` of `url.go`: a URL with a scheme (a colon with no slash before
it) is safe only if the scheme is `http`, `https` or `mailto`. -/
def isSafeURL (s : String) : Bool :=
  let protocol := s.data.takeWhile (· ≠ Char.ofNat 0x3A)
  if protocol.length < s.data.length ∧ ¬ (Char.ofNat 0x2F) ∈ protocol then
    equalFold (String.mk protocol) "http" || equalFold (String.mk protocol) "https"
      || equalFold (String.mk protocol) "mailto"
  else true

/-- `urlFilter` on a plain string: an unsafe URL is replaced by `#ZgotmplZ`. -/
def urlFilter (s : String) : String :=
  if isSafeURL s then s else "#ZgotmplZ"

/-- The bytes `processURLOnto` copies unchanged when it normalises: the
unreserved and the reserved characters of RFC 3986 other than the apostrophe
and the parentheses. -/
def urlKeep (c : UInt8) : Bool :=
  c == 0x21 || c == 0x23 || c == 0x24 || c == 0x26 || c == 0x2A || c == 0x2B || c == 0x2C
    || c == 0x2F || c == 0x3A || c == 0x3B || c == 0x3D || c == 0x3F || c == 0x40
    || c == 0x5B || c == 0x5D
    || c == 0x2D || c == 0x2E || c == 0x5F || c == 0x7E
    || (0x61 ≤ c && c ≤ 0x7A) || (0x41 ≤ c && c ≤ 0x5A) || (0x30 ≤ c && c ≤ 0x39)

/-- The text `fmt.Fprintf(b, "%%%02x", c)` writes. -/
def percentEncode (c : UInt8) : List Char :=
  [Char.ofNat 0x25, lowerhex (c.toNat / 16), lowerhex (c.toNat % 16)]

/-- The loop of `processURLOnto(s, true, b)` over the bytes of the URL: a byte
is copied if it may stand in a URL, a `%` is copied if two hexadecimal digits
follow it, and every other byte is written as `%xx`. -/
def processURL : List UInt8 → List Char
  | [] => []
  | c :: rest =>
    if urlKeep c then Char.ofNat c.toNat :: processURL rest
    else if c = 0x25 ∧ (rest.take 2).length = 2 ∧ (rest.take 2).all isHexDigit then
      Char.ofNat c.toNat :: processURL rest
    else percentEncode c ++ processURL rest

/-- `urlNormalizer` on a plain string. -/
def urlNormalizer (s : String) : String :=
  String.mk (processURL (utf8 s))

/-- The text `fmt.Sprint` gives for an `int`. -/
def sprintInt (n : Int) : String := toString n

/-! ## `generateHTML` (`create.go` lines 95-178) -/

/-- The text of the template before `{{range .}}`. -/
def templateHead : String :=
  "\n" ++
  "\t\t<!DOCTYPE html>\n" ++
  "\t\t<html>\n" ++
  "\t\t<head>\n" ++
  "\t\t    <meta name=\"description\" content=\"\">\n" ++
  "\t\t    <meta name=\"viewport\" content=\"width=device-width, initial-scale=1\">\n" ++
  "\t\t    <meta property=\"og:title\" content=\"\">\n" ++
  "\t\t    <meta property=\"og:type\" content=\"\">\n" ++
  "\t\t    <meta property=\"og:url\" content=\"\">\n" ++
  "\t\t    <meta property=\"og:image\" content=\"\">\n" ++
  "\t\t    <link rel=\"stylesheet\" type=\"text/css\" href=\"https://cdn.datatables.net/1.10.25/css/jquery.dataTables.min.css\">\n" ++
  "\t\t\t<link rel=\"stylesheet\" type=\"text/css\" href=\"https://cdn.datatables.net/buttons/2.2.3/css/buttons.dataTables.min.css\">\n" ++
  "\t\t\t<link rel=\"stylesheet\" type=\"text/css\" href=\"https://cdnjs.cloudflare.com/ajax/libs/font-awesome/5.15.4/css/all.min.css\">\n" ++
  "\t\t\t<link rel=\"stylesheet\" type=\"text/css\" href=\"https://cdn.jsdelivr.net/npm/bootstrap@4.6.1/dist/css/bootstrap.min.css\">\n" ++
  "\t\t\t<script src=\"https://code.jquery.com/jquery-3.6.0.min.js\"></script>\n" ++
  "\t\t\t<script src=\"https://cdn.jsdelivr.net/npm/bootstrap@4.6.1/dist/js/bootstrap.bundle.min.js\"></script>\n" ++
  "\t\t\t<script src=\"https://cdn.datatables.net/1.10.25/js/jquery.dataTables.min.js\"></script>\n" ++
  "\t\t\t<script src=\"https://cdn.datatables.net/buttons/2.2.3/js/dataTables.buttons.min.js\"></script>\n" ++
  "\t\t\t<script src=\"https://cdn.datatables.net/buttons/2.2.3/js/buttons.html5.min.js\"></script>\n" ++
  "\t\t\t<script src=\"https://cdn.datatables.net/buttons/2.2.3/js/buttons.print.min.js\"></script>\n" ++
  "\n" ++
  "\n" ++
  "\t\t\t<script type=\"text/javascript\" class=\"init\">\n" ++
  "\t\t\t\t$(document).ready(function() \x7b\n" ++
  "\t\t\t\t$(\x27#datatable\x27).DataTable( \x7b\n" ++
  "\t\t\t\tdom: \x27Bfrtip\x27,\n" ++
  "\t\t\t\tlengthMenu: [[100, 250, 500, -1],[100, 250, 500, \x27All\x27]],\n" ++
  "\t\t\t\tbuttons: [\n" ++
  "\t\t\t\t\t\t\t\x27copy\x27, \x27csv\x27, \x27excel\x27, \x27print\x27\n" ++
  "\t\t\t\t\t\t ]\n" ++
  "\t\t\t\t\t\x7d );\n" ++
  "\t\t\t\t\x7d );\n" ++
  "\t\t</script>\n" ++
  "\t\t</head>\n" ++
  "\t\t<body>\n" ++
  "\t\t\t<table id=\"datatable\" class=\"display\" style=\"width:100%\">\n" ++
  "\t\t\t\t<thead>\n" ++
  "\t\t\t\t\t<tr>\n" ++
  "\t\t\t\t\t\t<th>Response URL</th>\n" ++
  "\t\t\t\t\t\t<th>Title</th>\n" ++
  "\t\t\t\t\t\t<th>Redirects</th>\n" ++
  "\t\t\t\t\t\t<th>Screenshot</th>\n" ++
  "\t\t\t\t\t\t<th>Path</th>\n" ++
  "\t\t\t\t\t\t<th>Status Code</th>\n" ++
  "\t\t\t\t\t</tr>\n" ++
  "\t\t\t\t</thead>\n" ++
  "\t\t\t\t<tbody>\n" ++
  "\t\t\t\t\t"

/-- The text between `{{range .}}` and the first `{{.URL}}`. -/
def rowText0 : String :=
  "\n" ++
  "\t\t\t\t\t\t<tr>\n" ++
  "\t\t\t\t\t\t\t<td><textarea rows=\"5\" cols=\"30\" readonly>"

/-- The text between `{{.URL}}` and `{{.Title}}`. -/
def rowText1 : String :=
  "</textarea></td>\n" ++
  "\t\t\t\t\t\t\t<td><textarea rows=\"5\" cols=\"30\" readonly>"

/-- The text between `{{.Title}}` and `{{.Redirects}}`. -/
def rowText2 : String :=
  "</textarea></td>\n" ++
  "\t\t\t\t\t\t\t<td><textarea rows=\"5\" cols=\"30\" readonly>"

/-- The text between `{{.Redirects}}` and the `{{.URL}}` of the `href` attribute. -/
def rowText3 : String :=
  "</textarea></td>\n" ++
  "\t\t\t\t\t\t\t<td><a href=\""

/-- The text between the `href` and the `src` attribute values. -/
def rowText4 : String :=
  "\" target=\"_blank\" rel=\"noreferrer\"><img src=\""

/-- The text between `{{.Screenshot}}` and `{{.Path}}`. -/
def rowText5 : String :=
  "\"></a></td>\n" ++
  "\t\t\t\t\t\t\t<td><textarea rows=\"5\" cols=\"30\" readonly>"

/-- The text between `{{.Path}}` and `{{.StatusCode}}`. -/
def rowText6 : String :=
  "</textarea></td>\n" ++
  "\t\t\t\t\t\t\t<td>"

/-- The text between `{{.StatusCode}}` and `{{end}}`. -/
def rowText7 : String :=
  "</td>\n" ++
  "\t\t\t\t\t\t</tr>\n" ++
  "\t\t\t\t\t"

/-- The text of the template after `{{end}}`. -/
def templateTail : String :=
  "\n" ++
  "\t\t\t\t</tbody>\n" ++
  "\t\t\t</table>\n" ++
  "\t\t\t<script>\n" ++
  "\t\t\t\t$(document).ready(function() \x7b\n" ++
  "\t\t\t\t\t$(\x27#datatable\x27).DataTable();\n" ++
  "\t\t\t\t\x7d);\n" ++
  "\t\t\t</script>\n" ++
  "\t\t</body>\n" ++
  "\t\t</html>\n" ++
  "\t"

/-- One pass through the body of `{{range .}}` for one row.  `html/template`
gives every action the escapers of the place it stands in: `rcdataEscaper`
inside `<textarea>`, `urlFilter`, `urlNormalizer` and `attrEscaper` inside the
quoted `href` and `src` attribute values, `htmlEscaper` inside `<td>`.  The
text between the actions is written as it stands. -/
def executeRow (row : DataTableRow) : String :=
  rowText0 ++ rcdataEscaper row.URL
    ++ rowText1 ++ rcdataEscaper row.Title
    ++ rowText2 ++ rcdataEscaper row.Redirects
    ++ rowText3 ++ attrEscaper (urlNormalizer (urlFilter row.URL))
    ++ rowText4 ++ attrEscaper (urlNormalizer (urlFilter row.Screenshot))
    ++ rowText5 ++ rcdataEscaper row.Path
    ++ rowText6 ++ htmlEscaper (sprintInt row.StatusCode)
    ++ rowText7

/-- The document `tmpl.Execute(file, rows)` writes to `output.html`, when the
file can be created and written: the head of the template, one pass through
the body of `{{range .}}` per row in order, and the tail. -/
def generateHTML (rows : List DataTableRow) : String :=
  rows.foldl (fun out row => out ++ executeRow row) templateHead ++ templateTail


/-! ## Notions used in the statements -/

/-- A redirect whose headers are `location` and `connection`, with status code
0 and an empty redirect URI. -/
def hop (location connection : String) : Redirect :=
  { Headers := { Location := location, Connection := connection }
    Status := { Code := 0 }
    RedirectURI := "" }

/-- The outcomes of the first `n` calls of `Decode`, starting from `decoder`. -/
def attempts {δ : Type} (Decode : δ → δ × Except DecodeError JSONData) :
    Nat → δ → List (Except DecodeError JSONData)
  | 0, _ => []
  | n + 1, decoder => (Decode decoder).2 :: attempts Decode n (Decode decoder).1

/-- The outcome that makes `readJSONData` leave its loop: an error whose
message is `"EOF"`. -/
def endsInput (outcome : Except DecodeError JSONData) : Bool :=
  match outcome with
  | .error err => decide (err.Error = "EOF")
  | .ok _ => false

/-- The records of the attempts that succeeded, in the order of the attempts. -/
def succeeded (outcomes : List (Except DecodeError JSONData)) : List JSONData :=
  outcomes.filterMap fun outcome =>
    match outcome with
    | .ok jsonData => some jsonData
    | .error _ => none


/-- Whether the bytes are, for the scanner in state `s`, exactly the rest of
one JSON object or array: the scan meets no error, and the top-level value is
closed by the last byte, a closing bracket, and not before. -/
def closesValue : scanner → List UInt8 → Bool
  | _, [] => false
  | s, c :: cs =>
    match s.doStep c with
    | (_, .scanEnd) => false
    | (s1, .scanEndObject) =>
      if (stateEndValue s1 0x20).2 = .scanEnd then cs.isEmpty else closesValue s1 cs
    | (s1, .scanEndArray) =>
      if (stateEndValue s1 0x20).2 = .scanEnd then cs.isEmpty else closesValue s1 cs
    | (_, .scanError) => false
    | (s1, _) => closesValue s1 cs

/-- Whether the scan of `readValue` over the bytes, started afresh, ends with
their last byte, the closing bracket of an object or array. -/
def closesDocument (document : List UInt8) : Bool :=
  closesValue scanner.reset document

/-- Whether the first byte after leading white space opens an object or array. -/
def startsBracket (d : List UInt8) : Bool :=
  match skipSpace d with
  | c :: _ => c == 0x7B || c == 0x5B
  | [] => false

/-- Whether the last byte closes an object or array. -/
def endsBracket (d : List UInt8) : Bool :=
  match d.getLast? with
  | some c => c == 0x7D || c == 0x5D
  | none => false

/-- What one scanner step does while an object or array is open: it reports an
error, or the value stays open, or the byte is a closing bracket that ends the
top-level value. -/
def StepInside (c : UInt8) (r : scanner × Op) : Prop :=
  (r.2 = .scanError ∧ r.1.endTop = false)
  ∨ (r.2 ≠ .scanError ∧ r.2 ≠ .scanEnd ∧ r.1.parseState ≠ [] ∧ r.1.endTop = false
      ∧ r.1.err = none ∧ r.1.step ≠ .stateEndTop)
  ∨ ((r.2 = .scanEndObject ∨ r.2 = .scanEndArray) ∧ r.1.parseState = []
      ∧ r.1.step = .stateEndTop ∧ r.1.err = none ∧ (c = 0x7D ∨ c = 0x5D))

/-- A syntactically valid JSON document that is an object or an array: the
text is valid for `json.Valid`, its first byte after leading white space is an
opening bracket and its last byte is a closing bracket (no white space after
the value). -/
def JSONDocument (document : List UInt8) : Bool :=
  Valid document && startsBracket document && endsBracket document

/-- What one scanner step keeps true: unless it reports an error or the end
of the top-level value, it records no error, and when it closes an object or
array that leaves nothing open it has marked the top-level value as ended. -/
def StepKeeps (s : scanner) (r : scanner × Op) : Prop :=
  r.2 = .scanError ∨ r.2 = .scanEnd
    ∨ (r.1.err = s.err
        ∧ ((r.2 = .scanEndObject ∨ r.2 = .scanEndArray) → r.1.parseState = [] → r.1.endTop = true))


/-- The record a document decodes to, if `unmarshal` stores it without error. -/
def decoded (document : List UInt8) : Option JSONData :=
  match unmarshal document with
  | .ok jsonData => some jsonData
  | .error _ => none

/-- Whether a JSON value can be stored in a `string` field: a string, or
`null`. -/
def storesString : JValue → Bool
  | .string _ => true
  | .null => true
  | _ => false

/-- Whether a JSON value can be stored in an `int` field: a number that
`ParseInt` accepts, or `null`. -/
def storesInt : JValue → Bool
  | .number item => (ParseInt item).isSome
  | .null => true
  | _ => false

/-- Whether a JSON value can be stored in a struct: `null`, or an object each
of whose members is fine for the field its key names (`member` decides that). -/
def storesStruct (member : String → JValue → Bool) : JValue → Bool
  | .object members => members.all fun m => member m.1 m.2
  | .null => true
  | _ => false

def typedHeaders (key : String) (v : JValue) : Bool :=
  if fieldMatch key "location" then storesString v
  else if fieldMatch key "connection" then storesString v
  else true

def typedStatus (key : String) (v : JValue) : Bool :=
  if fieldMatch key "code" then storesInt v else true

def typedRedirect (key : String) (v : JValue) : Bool :=
  if fieldMatch key "headers" then storesStruct typedHeaders v
  else if fieldMatch key "status" then storesStruct typedStatus v
  else if fieldMatch key "redirect_uri" then storesString v
  else true

def typedRendered (key : String) (v : JValue) : Bool :=
  if fieldMatch key "screenshot" then storesString v else true

/-- Whether a JSON value can be stored in the `Redirects` slice: `null`, or an
array of values that can be stored in its element struct. -/
def storesRedirects : JValue → Bool
  | .array elems => elems.all (storesStruct typedRedirect)
  | .null => true
  | _ => false

def typedResponse (key : String) (v : JValue) : Bool :=
  if fieldMatch key "url" then storesString v
  else if fieldMatch key "title" then storesString v
  else if fieldMatch key "redirects" then storesRedirects v
  else if fieldMatch key "rendered" then storesStruct typedRendered v
  else if fieldMatch key "path" then storesString v
  else if fieldMatch key "status" then storesStruct typedStatus v
  else true

def typedData (key : String) (v : JValue) : Bool :=
  if fieldMatch key "response" then storesStruct typedResponse v else true

def typedResult (key : String) (v : JValue) : Bool :=
  if fieldMatch key "data" then storesStruct typedData v else true

def typedJSONData (key : String) (v : JValue) : Bool :=
  if fieldMatch key "result" then storesStruct typedResult v else true

/-- A document, an object or `null`, in which every recognised field that is
present holds a value that the decoder stores without a type error: an object
or `null` for `result`, `data`, `response`, `rendered`, `status`, `headers`
and the elements of `redirects`; an array or `null` for `redirects`; a string
or `null` for `url`, `title`, `path`, `screenshot`, `location`, `connection`
and `redirect_uri`; and for `code` `null` or a number literal that
`strconv.ParseInt` accepts, that is an integer without fraction or exponent
that fits in 64 bits.  Keys name a field as the decoder matches them, without
regard to case.  Members with other keys may hold anything. -/
def wellTyped (v : JValue) : Bool := storesStruct typedJSONData v

/-- The values an object holds under the keys that name the field `name`. -/
def JValue.field (name : String) : JValue → List JValue
  | .object members => (members.filter fun m => fieldMatch m.1 name).map fun m => m.2
  | _ => []

/-- The values a document holds at the end of a path of field names. -/
def reach : List String → JValue → List JValue
  | [], v => [v]
  | name :: path, v => (v.field name).flatMap (reach path)

def JValue.isArray : JValue → Bool
  | .array _ => true
  | _ => false

/-- The characters with which a value could leave the place the template puts
it in: `<` and `>` (a tag), `"` and the apostrophe (the end of a quoted
attribute value). -/
def markup : List Char := [Char.ofNat 0x3C, Char.ofNat 0x3E, Char.ofNat 0x22, Char.ofNat 0x27]

/-- How often the character occurs in the text of the template that one pass
through the body of `{{range .}}` writes. -/
def rowTextCount (c : Char) : Nat :=
  rowText0.data.count c + rowText1.data.count c + rowText2.data.count c
    + rowText3.data.count c + rowText4.data.count c + rowText5.data.count c
    + rowText6.data.count c + rowText7.data.count c

/-! ## Theorems -/

/-! ### `formatRedirects` -/

theorem formatRedirects_foldl_data (rs : List Redirect) (acc : String) :
    (rs.foldl
      (fun result redirect =>
        result ++ sprintfLocationConnection redirect.Headers.Location redirect.Headers.Connection)
      acc).data
    = acc.data ++ (rs.map fun r =>
        "Location: ".data ++ r.Headers.Location.data ++ "\nConnection: ".data
          ++ r.Headers.Connection.data ++ "\n\n".data).flatten := by
  induction rs generalizing acc with
  | nil => simp
  | cons r rs ih =>
    simp only [List.foldl_cons, List.map_cons, List.flatten_cons]
    rw [ih]
    simp [sprintfLocationConnection, String.data_append, List.append_assoc]

theorem formatRedirects_data (rs : List Redirect) :
    (formatRedirects rs).data
    = (rs.map fun r =>
        "Location: ".data ++ r.Headers.Location.data ++ "\nConnection: ".data
          ++ r.Headers.Connection.data ++ "\n\n".data).flatten := by
  unfold formatRedirects
  rw [formatRedirects_foldl_data]
  simp

/-- C1: for every redirect chain the text returned by `formatRedirects` is,
character for character, the concatenation in chain order of
`"Location: <location>\nConnection: <connection>\n\n"` over the hops, with
nothing before, between or after; the chain `[{a,b},{c,d}]` gives
`"Location: a\nConnection: b\n\nLocation: c\nConnection: d\n\n"`. -/
theorem formatRedirects_is_concatenation :
    (∀ rs : List Redirect,
      (formatRedirects rs).data
        = (rs.map fun r =>
            "Location: ".data ++ r.Headers.Location.data ++ "\nConnection: ".data
              ++ r.Headers.Connection.data ++ "\n\n".data).flatten)
    ∧ formatRedirects [hop "a" "b", hop "c" "d"]
        = "Location: a\nConnection: b\n\nLocation: c\nConnection: d\n\n" :=
  ⟨formatRedirects_data, by decide⟩

/-- C9: `formatRedirects` is not injective on the header contents of a chain:
the one-hop chains `{location: "a\nConnection: b", connection: "c"}` and
`{location: "a", connection: "b\nConnection: c"}` have the same length and
different hops, and both give `"Location: a\nConnection: b\nConnection: c\n\n"`. -/
theorem formatRedirects_not_injective :
    formatRedirects [hop "a\nConnection: b" "c"]
        = "Location: a\nConnection: b\nConnection: c\n\n"
    ∧ formatRedirects [hop "a" "b\nConnection: c"]
        = "Location: a\nConnection: b\nConnection: c\n\n"
    ∧ [hop "a\nConnection: b" "c"].length = [hop "a" "b\nConnection: c"].length
    ∧ (hop "a\nConnection: b" "c").Headers.Location ≠ (hop "a" "b\nConnection: c").Headers.Location
    ∧ (hop "a\nConnection: b" "c").Headers.Connection
        ≠ (hop "a" "b\nConnection: c").Headers.Connection
    ∧ ¬ Function.Injective formatRedirects := by
  refine ⟨by decide, by decide, by decide, by decide, by decide, ?_⟩
  intro hinj
  have h : [hop "a\nConnection: b" "c"] = [hop "a" "b\nConnection: c"] :=
    hinj (by decide)
  exact absurd h (by decide)

theorem formatRedirects_length (rs : List Redirect) :
    (formatRedirects rs).length
      = (rs.map fun r => 25 + r.Headers.Location.length + r.Headers.Connection.length).sum := by
  have hdata : ∀ s : String, s.length = s.data.length := fun _ => rfl
  rw [hdata, formatRedirects_data]
  induction rs with
  | nil => simp
  | cons r rs ih =>
    simp only [List.map_cons, List.flatten_cons, List.length_append, List.sum_cons, ih]
    have h1 : "Location: ".data.length = 10 := by decide
    have h2 : "\nConnection: ".data.length = 13 := by decide
    have h3 : "\n\n".data.length = 2 := by decide
    simp only [hdata, h1, h2, h3]
    omega

/-- C10: `formatRedirects` returns the empty string exactly for the chain
without hops; a single hop gives its 25 fixed characters plus its location
and connection, and a chain of `n` hops gives at least `25 * n` characters. -/
theorem formatRedirects_empty_iff (rs : List Redirect) :
    (formatRedirects rs = "" ↔ rs = [])
    ∧ (∀ r : Redirect, (formatRedirects [r]).length
        = 25 + r.Headers.Location.length + r.Headers.Connection.length)
    ∧ 25 * rs.length ≤ (formatRedirects rs).length := by
  have hlen : 25 * rs.length ≤ (formatRedirects rs).length := by
    rw [formatRedirects_length]
    induction rs with
    | nil => simp
    | cons r rs ih =>
      simp only [List.map_cons, List.sum_cons, List.length_cons]
      omega
  refine ⟨⟨fun h => ?_, fun h => by subst h; decide⟩, fun r => ?_, hlen⟩
  · cases rs with
    | nil => rfl
    | cons r rs =>
      rw [h] at hlen
      simp only [List.length_cons] at hlen
      have h0 : "".length = 0 := by decide
      omega
  · rw [formatRedirects_length]
    simp

/-! ### The row loop of `main` -/

theorem mainRows_foldl (data : List JSONData) (acc : List DataTableRow) :
    data.foldl
      (fun rows jsonData =>
        let redirects := formatRedirects jsonData.Result.Data.Response.Redirects.elems
        let row : DataTableRow :=
          { URL := jsonData.Result.Data.Response.URL
            Title := jsonData.Result.Data.Response.Title
            Redirects := redirects
            Screenshot := jsonData.Result.Data.Response.Rendered.Screenshot
            Path := jsonData.Result.Data.Response.Path
            StatusCode := jsonData.Result.Data.Response.Status.Code }
        rows ++ [row])
      acc
    = acc ++ data.map fun jsonData =>
        { URL := jsonData.Result.Data.Response.URL
          Title := jsonData.Result.Data.Response.Title
          Redirects := formatRedirects jsonData.Result.Data.Response.Redirects.elems
          Screenshot := jsonData.Result.Data.Response.Rendered.Screenshot
          Path := jsonData.Result.Data.Response.Path
          StatusCode := jsonData.Result.Data.Response.Status.Code } := by
  induction data generalizing acc with
  | nil => simp
  | cons d ds ih => simp [ih]

theorem mainRows_eq_map (data : List JSONData) :
    mainRows data = data.map fun jsonData =>
        { URL := jsonData.Result.Data.Response.URL
          Title := jsonData.Result.Data.Response.Title
          Redirects := formatRedirects jsonData.Result.Data.Response.Redirects.elems
          Screenshot := jsonData.Result.Data.Response.Rendered.Screenshot
          Path := jsonData.Result.Data.Response.Path
          StatusCode := jsonData.Result.Data.Response.Status.Code } := by
  unfold mainRows
  rw [mainRows_foldl]
  simp

/-- C2: for every list of decoded records the rows built by `main` are as many
as the records, and row `i` carries the `url`, `title`, `path`,
`rendered.screenshot` and `status.code` of record `i` unchanged, and as
`Redirects` the text `formatRedirects` gives for the redirects of record `i`;
the row list is defined for every record list. -/
theorem mainRows_rowwise (data : List JSONData) :
    (mainRows data).length = data.length
    ∧ ∀ i : Nat, (mainRows data)[i]? = (data[i]?).map fun jsonData =>
        { URL := jsonData.Result.Data.Response.URL
          Title := jsonData.Result.Data.Response.Title
          Redirects := formatRedirects jsonData.Result.Data.Response.Redirects.elems
          Screenshot := jsonData.Result.Data.Response.Rendered.Screenshot
          Path := jsonData.Result.Data.Response.Path
          StatusCode := jsonData.Result.Data.Response.Status.Code } := by
  rw [mainRows_eq_map]
  exact ⟨by simp, fun i => by simp⟩

/-! ### The loop of `readJSONData` over any decoder -/

/-- A result of the loop does not depend on the bound: with more iterations
allowed the loop returns the same list. -/
theorem decodeLoop_more_fuel {δ : Type} (Decode : δ → δ × Except DecodeError JSONData)
    (fuel : Nat) :
    ∀ (decoder : δ) (data result : List JSONData) (extra : Nat),
      decodeLoop Decode fuel decoder data = some result →
      decodeLoop Decode (fuel + extra) decoder data = some result := by
  induction fuel with
  | zero => intro decoder data result extra h; simp [decodeLoop] at h
  | succ n ih =>
    intro decoder data result extra h
    have hfuel : n + 1 + extra = (n + extra) + 1 := by omega
    rw [hfuel, decodeLoop]
    rw [decodeLoop] at h
    rcases hd : Decode decoder with ⟨d1, o⟩
    rw [hd] at h
    cases o with
    | error err =>
      simp only at h ⊢
      split_ifs at h ⊢ with hE
      · exact h
      · exact ih d1 data result extra h
    | ok r =>
      simp only at h ⊢
      exact ih d1 (data ++ [r]) result extra h

theorem decodeLoop_attempts {δ : Type} (Decode : δ → δ × Except DecodeError JSONData)
    (outcomes : List (Except DecodeError JSONData)) :
    ∀ (decoder : δ) (last : Except DecodeError JSONData) (data : List JSONData) (extra : Nat),
      attempts Decode (outcomes.length + 1) decoder = outcomes ++ [last] →
      (∀ o ∈ outcomes, endsInput o = false) →
      endsInput last = true →
      decodeLoop Decode (outcomes.length + 1 + extra) decoder data
        = some (data ++ succeeded outcomes) := by
  induction outcomes with
  | nil =>
    intro decoder last data extra hatt _ hlast
    simp only [List.length_nil, Nat.zero_add, attempts, List.nil_append, List.cons.injEq,
      and_true] at hatt
    have hfuel : ([] : List (Except DecodeError JSONData)).length + 1 + extra = extra + 1 := by
      simp only [List.length_nil]
      omega
    rw [hfuel, decodeLoop]
    rcases hd : Decode decoder with ⟨d1, o⟩
    rw [hd] at hatt
    simp only at hatt
    subst hatt
    cases o with
    | error err =>
      simp only [endsInput, decide_eq_true_eq] at hlast
      simp [hlast, succeeded]
    | ok r => simp [endsInput] at hlast
  | cons o os ih =>
    intro decoder last data extra hatt hbefore hlast
    have hlen : (o :: os).length + 1 + extra = (os.length + 1 + extra) + 1 := by
      simp only [List.length_cons]
      omega
    rw [hlen, decodeLoop]
    rw [List.length_cons, attempts] at hatt
    simp only [List.cons_append, List.cons.injEq] at hatt
    obtain ⟨ho, hrest⟩ := hatt
    rcases hd : Decode decoder with ⟨d1, o1⟩
    rw [hd] at ho hrest
    simp only at ho hrest
    subst ho
    have hnot : endsInput o1 = false := hbefore o1 (by simp)
    have hos : ∀ x ∈ os, endsInput x = false := fun x hx => hbefore x (by simp [hx])
    cases o1 with
    | error err =>
      simp only [endsInput, decide_eq_false_iff_not] at hnot
      simp only [hnot, if_false]
      rw [ih d1 last data extra hrest hos hlast]
      simp [succeeded]
    | ok r =>
      simp only
      rw [ih d1 last (data ++ [r]) extra hrest hos hlast]
      simp [succeeded]

/-- C6: whatever the decoder does, if its attempts are `outcomes`, none of
which reports `"EOF"`, followed by one that does, then the loop of
`readJSONData` ends, and the list it has built is exactly the records of the
attempts that succeeded, in the order of the attempts: a failed attempt adds
nothing. -/
theorem decodeLoop_returns_succeeded {δ : Type}
    (Decode : δ → δ × Except DecodeError JSONData) (decoder : δ)
    (outcomes : List (Except DecodeError JSONData)) (last : Except DecodeError JSONData)
    (extra : Nat)
    (hattempts : attempts Decode (outcomes.length + 1) decoder = outcomes ++ [last])
    (hbefore : ∀ o ∈ outcomes, endsInput o = false)
    (hlast : endsInput last = true) :
    decodeLoop Decode (outcomes.length + 1 + extra) decoder [] = some (succeeded outcomes) := by
  have h := decodeLoop_attempts Decode outcomes decoder last [] extra hattempts hbefore hlast
  simpa using h

/-- The theorem on the loop at the stream decoder reading `{}[]{}`: the two
objects succeed, the array fails with a type error, the fourth attempt reports
`EOF`, and the loop returns the two records. -/
theorem decodeLoop_returns_succeeded_witness :
    decodeLoop Decoder.Decode (3 + 1 + 0) (NewDecoder (utf8 "\x7b\x7d[]\x7b\x7d")) []
      = some [JSONData.zero, JSONData.zero] :=
  decodeLoop_returns_succeeded Decoder.Decode (NewDecoder (utf8 "\x7b\x7d[]\x7b\x7d"))
    [.ok JSONData.zero,
     .error (.UnmarshalType { Value := "array", GoType := "main.JSONData" }),
     .ok JSONData.zero]
    (.error .EOF) 0 (by decide) (by decide) (by decide)

/-! ### The stream decoder on a concatenation of documents -/

theorem unmarshalType_Error_ne_EOF (e : UnmarshalTypeError) :
    (DecodeError.UnmarshalType e).Error ≠ "EOF" := by
  intro h
  have hlen := congrArg String.length h
  simp only [DecodeError.Error, String.length_append] at hlen
  have h1 : "json: cannot unmarshal ".length = 23 := by decide
  have h2 : "EOF".length = 3 := by decide
  omega

theorem stateBeginValue_space (c : UInt8) (h : isSpace c = true) :
    scanner.reset.doStep c = (scanner.reset, .scanSkipSpace) := by
  simp [scanner.doStep, scanner.reset, stateBeginValue, h]

theorem readValueScan_spaces (pending ws : List UInt8) (n : Nat)
    (hws : ∀ c ∈ ws, isSpace c = true) :
    readValueScan pending scanner.reset ws n
      = if nonSpace pending then .fail .ErrUnexpectedEOF else .fail .EOF := by
  induction ws generalizing n with
  | nil =>
    have h : (scanner.reset.doStep 0x20).2 ≠ .scanEnd := by decide
    simp [readValueScan, h]
  | cons c cs ih =>
    have hc := stateBeginValue_space c (hws c (by simp))
    rw [readValueScan, hc]
    exact ih (n + 1) (fun x hx => hws x (by simp [hx]))

/-- What follows a document does not matter to `readValue`: the scan stops at
the closing bracket that ends the top-level value. -/
theorem readValueScan_closes (pending : List UInt8) (d rest : List UInt8) :
    ∀ (s : scanner) (n : Nat), closesValue s d = true →
      readValueScan pending s (d ++ rest) n = .value (n + d.length) := by
  induction d with
  | nil => intro s n h; simp [closesValue] at h
  | cons c cs ih =>
    intro s n h
    rw [List.cons_append, readValueScan]
    rw [closesValue] at h
    rcases hstep : s.doStep c with ⟨s1, op⟩
    rw [hstep] at h
    have hlen : n + (c :: cs).length = n + 1 + cs.length := by
      simp only [List.length_cons]; omega
    have hend : ∀ s1 : scanner,
        (if (stateEndValue s1 0x20).2 = .scanEnd then cs.isEmpty else closesValue s1 cs) = true →
        (if (stateEndValue s1 0x20).2 = .scanEnd then ReadValue.value (n + 1)
          else readValueScan pending s1 (cs ++ rest) (n + 1))
          = .value (n + (c :: cs).length) := by
      intro s1 h1
      split at h1
      · simp only [List.isEmpty_iff] at h1
        subst h1
        simp [*]
      · rename_i hne
        rw [if_neg hne, hlen]
        exact ih s1 (n + 1) h1
    cases op with
    | scanEnd => simp at h
    | scanError => simp at h
    | scanEndObject => exact hend s1 h
    | scanEndArray => exact hend s1 h
    | _ => simp only at h ⊢; rw [hlen]; exact ih s1 (n + 1) h

theorem readValue_document (d rest : List UInt8) (h : closesDocument d = true) :
    readValue (d ++ rest) = .value d.length := by
  unfold readValue
  rw [readValueScan_closes (d ++ rest) d rest scanner.reset 0 h]
  simp

theorem readValue_spaces (ws : List UInt8) (hws : ∀ c ∈ ws, isSpace c = true) :
    readValue ws = .fail .EOF := by
  unfold readValue
  rw [readValueScan_spaces ws ws 0 hws]
  have : nonSpace ws = false := by
    simp only [nonSpace, List.any_eq_false, Bool.not_eq_true', Bool.not_eq_false]
    intro x hx; simp [hws x hx]
  simp [this]

theorem decodeLoop_documents (docs : List (List UInt8)) (ws : List UInt8)
    (hdocs : ∀ d ∈ docs, closesDocument d = true) (hws : ∀ c ∈ ws, isSpace c = true) :
    ∀ (data : List JSONData) (extra : Nat),
      decodeLoop Decoder.Decode (docs.length + 1 + extra)
          { input := docs.flatten ++ ws, err := none } data
        = some (data ++ docs.filterMap decoded) := by
  induction docs with
  | nil =>
    intro data extra
    have hfuel : ([] : List (List UInt8)).length + 1 + extra = extra + 1 := by
      simp only [List.length_nil]; omega
    rw [hfuel, decodeLoop]
    simp [Decoder.Decode, readValue_spaces ws hws, DecodeError.Error]
  | cons d ds ih =>
    intro data extra
    have hfuel : (d :: ds).length + 1 + extra = (ds.length + 1 + extra) + 1 := by
      simp only [List.length_cons]; omega
    have hd : closesDocument d = true := hdocs d (by simp)
    have hds : ∀ x ∈ ds, closesDocument x = true := fun x hx => hdocs x (by simp [hx])
    rw [hfuel, decodeLoop]
    simp only [Decoder.Decode, List.flatten_cons, List.append_assoc,
      readValue_document d (ds.flatten ++ ws) hd, List.take_left', List.drop_left']
    cases hu : unmarshal d with
    | ok r =>
      simp only [List.take_left', List.drop_left']
      rw [ih hds]
      simp [decoded, hu]
    | error e =>
      simp only [unmarshalType_Error_ne_EOF e, if_false]
      rw [ih hds]
      simp [decoded, hu]

theorem Decode_document (document : List UInt8) (h : closesDocument document = true) :
    (NewDecoder document).Decode.2
      = match unmarshal document with
        | .ok jsonData => .ok jsonData
        | .error e => .error (.UnmarshalType e) := by
  have hr : readValue document = .value document.length := by
    have := readValue_document document [] h
    simpa using this
  simp only [Decoder.Decode, NewDecoder, hr, List.take_length]
  cases unmarshal document <;> rfl

/-! ### `JSONDocument` and the scan of `readValue` -/

theorem keeps_continue (s s1 : scanner) (op : Op) (herr : s1.err = s.err)
    (hop : op ≠ .scanEndObject ∧ op ≠ .scanEndArray) : StepKeeps s (s1, op) := by
  refine Or.inr (Or.inr ⟨herr, ?_⟩)
  intro h
  rcases h with h | h
  · exact absurd h hop.1
  · exact absurd h hop.2

theorem keeps_error (s : scanner) (c : UInt8) (context : String) (s0 : scanner) :
    StepKeeps s0 (s.error c context) := Or.inl rfl

theorem stateEndTop_keeps (s s0 : scanner) (c : UInt8) : StepKeeps s0 (stateEndTop s c) := by
  unfold stateEndTop
  split <;> exact Or.inr (Or.inl rfl)

theorem popParseState_keeps (s : scanner) (op : Op) : StepKeeps s (s.popParseState, op) := by
  refine Or.inr (Or.inr ⟨?_, ?_⟩)
  · show s.popParseState.err = s.err
    simp only [scanner.popParseState]
    split_ifs <;> rfl
  · intro _ hnil
    have hnil1 : s.popParseState.parseState = [] := hnil
    show s.popParseState.endTop = true
    simp only [scanner.popParseState] at hnil1 ⊢
    split_ifs at hnil1 ⊢ with h
    · rfl
    · simp only at hnil1
      simp [hnil1] at h

theorem stateEndValue_keeps (s : scanner) (c : UInt8) : StepKeeps s (stateEndValue s c) := by
  unfold stateEndValue
  split
  · exact stateEndTop_keeps _ _ _
  · split
    · exact keeps_continue _ _ _ rfl (by decide)
    · split
      · split
        · exact keeps_continue _ _ _ rfl (by decide)
        · exact keeps_error _ _ _ _
      · split
        · exact keeps_continue _ _ _ rfl (by decide)
        · split
          · exact popParseState_keeps _ _
          · exact keeps_error _ _ _ _
      · split
        · exact keeps_continue _ _ _ rfl (by decide)
        · split
          · exact popParseState_keeps _ _
          · exact keeps_error _ _ _ _

theorem pushParseState_keeps (s s0 : scanner) (c : UInt8) (ps : ParseState) (op : Op)
    (herr : s.err = s0.err) (hop : op ≠ .scanEndObject ∧ op ≠ .scanEndArray) :
    StepKeeps s0 (s.pushParseState c ps op) := by
  unfold scanner.pushParseState
  simp only
  split
  · exact keeps_continue _ _ _ herr hop
  · exact keeps_error _ _ _ _

theorem stateBeginValue_keeps (s : scanner) (c : UInt8) : StepKeeps s (stateBeginValue s c) := by
  unfold stateBeginValue
  repeat' split
  all_goals first
    | exact keeps_error _ _ _ _
    | exact pushParseState_keeps _ _ _ _ _ rfl (by decide)
    | exact keeps_continue _ _ _ rfl (by decide)

theorem stateEndValue_keeps_from (s s0 : scanner) (c : UInt8) (herr : s.err = s0.err) :
    StepKeeps s0 (stateEndValue s c) := by
  have h := stateEndValue_keeps s c
  unfold StepKeeps at h ⊢
  rw [← herr]
  exact h

theorem doStep_keeps (s : scanner) (c : UInt8) : StepKeeps s (s.doStep c) := by
  unfold scanner.doStep
  cases s.step <;> simp only
  case stateBeginValue => exact stateBeginValue_keeps s c
  case stateEndValue => exact stateEndValue_keeps s c
  case stateEndTop => exact stateEndTop_keeps _ _ _
  case stateError => exact Or.inl rfl
  case stateBeginValueOrEmpty =>
    unfold stateBeginValueOrEmpty
    repeat' split
    · exact keeps_continue _ _ _ rfl (by decide)
    · exact stateEndValue_keeps s c
    · exact stateBeginValue_keeps s c
  case stateBeginStringOrEmpty =>
    unfold stateBeginStringOrEmpty stateBeginString
    repeat' split
    all_goals first
      | exact keeps_error _ _ _ _
      | exact keeps_continue _ _ _ rfl (by decide)
      | exact stateEndValue_keeps_from _ _ _ rfl
  all_goals
    simp only [stateBeginString, stateInString, stateInStringEsc, stateInStringEscUn, stateNeg,
      state1, state0, stateDot, stateDot0, stateE, stateESign, stateE0, stateLiteral]
    repeat' split
    all_goals first
      | exact keeps_error _ _ _ _
      | exact keeps_continue _ _ _ rfl (by decide)
      | exact stateEndValue_keeps s c

theorem checkValidFrom_of_closes (d : List UInt8) :
    ∀ s : scanner, s.err = none → closesValue s d = true → checkValidFrom s d = true := by
  induction d with
  | nil => intro s _ h; simp [closesValue] at h
  | cons c cs ih =>
    intro s hs h
    rw [closesValue] at h
    rw [checkValidFrom]
    have hk := doStep_keeps s c
    rcases hstep : s.doStep c with ⟨s1, op⟩
    rw [hstep] at h hk
    have hend : ∀ (hop : op = .scanEndObject ∨ op = .scanEndArray),
        (if (stateEndValue s1 0x20).2 = .scanEnd then cs.isEmpty else closesValue s1 cs) = true →
        checkValidFrom s1 cs = true := by
      intro hop h1
      rcases hk with hk | hk | ⟨herr, htop⟩
      · rcases hop with hop | hop <;> simp [hop] at hk
      · rcases hop with hop | hop <;> simp [hop] at hk
      · split at h1
        · rename_i hse
          simp only [List.isEmpty_iff] at h1
          subst h1
          have hps : s1.parseState = [] := by
            unfold stateEndValue at hse
            split at hse
            · assumption
            · simp [isSpace] at hse
          have htrue : s1.endTop = true := htop hop hps
          have herr1 : s1.err = none := by rw [← hs]; exact herr
          simp [checkValidFrom, scanner.eof, herr1, htrue]
        · exact ih s1 (by rw [herr, hs]) h1
    cases op with
    | scanEnd => simp at h
    | scanError => simp at h
    | scanEndObject => exact hend (Or.inl rfl) h
    | scanEndArray => exact hend (Or.inr rfl) h
    | _ =>
      simp only at h ⊢
      rcases hk with hk | hk | ⟨herr, _⟩
      · simp at hk
      · simp at hk
      · exact ih s1 (by rw [herr, hs]) h

/-- A text that the stream decoder reads as one bracketed value ending with its
last byte is valid for `json.Valid`. -/
theorem Valid_of_closesDocument (d : List UInt8) (h : closesDocument d = true) : Valid d = true :=
  checkValidFrom_of_closes d scanner.reset rfl h

theorem inside_error (s : scanner) (c : UInt8) (context : String) (h : s.endTop = false) :
    StepInside c (s.error c context) := Or.inl ⟨rfl, h⟩

theorem inside_keep (c : UInt8) (s1 : scanner) (op : Op) (hps : s1.parseState ≠ [])
    (htop : s1.endTop = false) (herr : s1.err = none)
    (hop : op ≠ .scanError ∧ op ≠ .scanEnd) (hst : s1.step ≠ .stateEndTop) :
    StepInside c (s1, op) :=
  Or.inr (Or.inl ⟨hop.1, hop.2, hps, htop, herr, hst⟩)

theorem inside_pop (s : scanner) (c : UInt8) (op : Op)
    (htop : s.endTop = false) (herr : s.err = none)
    (hop : op = .scanEndObject ∨ op = .scanEndArray) (hc : c = 0x7D ∨ c = 0x5D) :
    StepInside c (s.popParseState, op) := by
  by_cases h : s.parseState.tail.length = 0
  · refine Or.inr (Or.inr ⟨hop, ?_, ?_, ?_, hc⟩)
    · show s.popParseState.parseState = []
      simp only [scanner.popParseState, h, if_true]
      exact List.length_eq_zero.mp h
    · show s.popParseState.step = .stateEndTop
      simp only [scanner.popParseState, h, if_true]
    · show s.popParseState.err = none
      simp only [scanner.popParseState, h, if_true, herr]
  · refine Or.inr (Or.inl ⟨?_, ?_, ?_, ?_, ?_, ?_⟩)
    · rcases hop with hop | hop <;> simp [hop]
    · rcases hop with hop | hop <;> simp [hop]
    · show s.popParseState.parseState ≠ []
      simp only [scanner.popParseState, h, if_false]
      intro hnil
      exact h (by simp [hnil])
    · show s.popParseState.endTop = false
      simp only [scanner.popParseState, h, if_false, htop]
    · show s.popParseState.err = none
      simp only [scanner.popParseState, h, if_false, herr]
    · show s.popParseState.step ≠ .stateEndTop
      simp only [scanner.popParseState, h, if_false]
      decide

theorem stateEndValue_inside (s : scanner) (c : UInt8) (hps : s.parseState ≠ [])
    (htop : s.endTop = false) (herr : s.err = none) : StepInside c (stateEndValue s c) := by
  have hstep2 : Step.stateEndValue ≠ Step.stateEndTop := by decide
  unfold stateEndValue
  split
  · rename_i hnil; exact absurd hnil hps
  · rename_i ps rest hcons
    split
    · exact inside_keep _ _ _ (by simp [hcons]) htop herr (by decide) hstep2
    · split
      · split
        · exact inside_keep _ _ _ (by simp) htop herr (by decide) (by first | exact hstep2 | simp)
        · exact inside_error _ _ _ htop
      · split
        · exact inside_keep _ _ _ (by simp) htop herr (by decide) (by first | exact hstep2 | simp)
        · split
          · rename_i hc
            exact inside_pop s c _ htop herr (Or.inl rfl) (Or.inl hc)
          · exact inside_error _ _ _ htop
      · split
        · exact inside_keep _ _ _ (by simp [hcons]) htop herr (by decide) (by first | exact hstep2 | simp)
        · split
          · rename_i hc
            exact inside_pop s c _ htop herr (Or.inr rfl) (Or.inr hc)
          · exact inside_error _ _ _ htop

theorem pushParseState_inside (s : scanner) (c : UInt8) (ps : ParseState) (op : Op)
    (htop : s.endTop = false) (herr : s.err = none) (hop : op ≠ .scanError ∧ op ≠ .scanEnd)
    (hstep2 : s.step ≠ .stateEndTop) :
    StepInside c (s.pushParseState c ps op) := by
  unfold scanner.pushParseState
  simp only
  split
  · exact inside_keep _ _ _ (by simp) htop herr hop hstep2
  · exact inside_error _ _ _ htop

theorem stateBeginValue_inside (s : scanner) (c : UInt8) (hps : s.parseState ≠ [])
    (htop : s.endTop = false) (herr : s.err = none) (hstep2 : s.step ≠ .stateEndTop) :
    StepInside c (stateBeginValue s c) := by
  unfold stateBeginValue
  repeat' split
  all_goals first
    | exact inside_error _ _ _ htop
    | exact pushParseState_inside _ _ _ _ htop herr (by decide) (by simp)
    | exact inside_keep _ _ _ hps htop herr (by decide) (by first | exact hstep2 | simp)

theorem doStep_inside (s : scanner) (c : UInt8) (hps : s.parseState ≠ [])
    (htop : s.endTop = false) (herr : s.err = none)
    (hstep2 : s.step ≠ .stateEndTop) : StepInside c (s.doStep c) := by
  unfold scanner.doStep
  cases hs : s.step <;> simp only
  case stateError => exact Or.inl ⟨rfl, htop⟩
  case stateEndTop => exact absurd hs hstep2
  case stateBeginValue => exact stateBeginValue_inside s c hps htop herr hstep2
  case stateEndValue => exact stateEndValue_inside s c hps htop herr
  case stateBeginValueOrEmpty =>
    unfold stateBeginValueOrEmpty
    repeat' split
    · exact inside_keep _ _ _ hps htop herr (by decide) hstep2
    · exact stateEndValue_inside s c hps htop herr
    · exact stateBeginValue_inside s c hps htop herr hstep2
  case stateBeginStringOrEmpty =>
    unfold stateBeginStringOrEmpty stateBeginString
    repeat' split
    all_goals first
      | exact inside_error _ _ _ htop
      | exact inside_keep _ _ _ hps htop herr (by decide) (by first | exact hstep2 | simp)
      | exact stateEndValue_inside _ _ (by simp) htop herr
  all_goals
    simp only [stateBeginString, stateInString, stateInStringEsc, stateInStringEscUn, stateNeg,
      state1, state0, stateDot, stateDot0, stateE, stateESign, stateE0, stateLiteral]
    repeat' split
    all_goals first
      | exact inside_error _ _ _ htop
      | exact inside_keep _ _ _ hps htop herr (by decide) (by first | exact hstep2 | simp)
      | exact stateEndValue_inside s c hps htop herr

theorem checkValidFrom_error_state (s : scanner) (hs : s.step = .stateError)
    (herr : s.err.isSome = true) : ∀ d : List UInt8, checkValidFrom s d = false := by
  intro d
  cases d with
  | nil => simp [checkValidFrom, scanner.eof, herr]
  | cons b bs => simp [checkValidFrom, scanner.doStep, hs]

theorem spaces_of_checkValidFrom_ended (d : List UInt8) :
    ∀ s : scanner, s.step = .stateEndTop → checkValidFrom s d = true →
      ∀ b ∈ d, isSpace b = true := by
  induction d with
  | nil => intro s _ _ b hb; simp at hb
  | cons c cs ih =>
    intro s hs h b hb
    have hstep : s.doStep c = stateEndTop s c := by simp [scanner.doStep, hs]
    rw [checkValidFrom, hstep] at h
    by_cases hc : isSpace c = true
    · simp only [stateEndTop, hc, Bool.not_true, Bool.false_eq_true, if_false] at h
      rcases List.mem_cons.mp hb with hb | hb
      · rw [hb]; exact hc
      · exact ih s hs h b hb
    · simp only [stateEndTop, hc, Bool.not_false, if_true] at h
      rw [checkValidFrom_error_state (s.error c "after top-level value").1 rfl rfl cs] at h
      exact absurd h (by simp)

theorem endsBracket_cons (c b : UInt8) (bs : List UInt8) :
    endsBracket (c :: b :: bs) = endsBracket (b :: bs) := by
  simp [endsBracket, List.getLast?_cons_cons]

theorem not_endsBracket_of_spaces (d : List UInt8) (h : ∀ b ∈ d, isSpace b = true) :
    endsBracket d = false := by
  unfold endsBracket
  cases hl : d.getLast? with
  | none => rfl
  | some c =>
    have hc : isSpace c = true := h c (List.mem_of_getLast?_eq_some hl)
    simp only [Bool.or_eq_false_iff, beq_eq_false_iff_ne]
    constructor
    · intro hE; rw [hE] at hc; exact absurd hc (by decide)
    · intro hE; rw [hE] at hc; exact absurd hc (by decide)

theorem stateEndValue_space_of_open (s : scanner) (hps : s.parseState ≠ []) :
    (stateEndValue s 0x20).2 ≠ .scanEnd := by
  unfold stateEndValue
  split
  · rename_i hnil; exact absurd hnil hps
  · have : isSpace 0x20 = true := by decide
    simp [this]

theorem stateEndValue_space_of_closed (s : scanner) (hps : s.parseState = []) :
    (stateEndValue s 0x20).2 = .scanEnd := by
  unfold stateEndValue
  have : isSpace 0x20 = true := by decide
  simp [hps, stateEndTop, this]

theorem closes_of_checkValidFrom_inside (d : List UInt8) :
    ∀ s : scanner, s.parseState ≠ [] → s.endTop = false → s.err = none →
      s.step ≠ .stateEndTop → checkValidFrom s d = true → endsBracket d = true →
      closesValue s d = true := by
  induction d with
  | nil => intro s _ _ _ _ _ h; simp [endsBracket] at h
  | cons c cs ih =>
    intro s hps htop herr hst hvalid hends
    have hinside := doStep_inside s c hps htop herr hst
    rw [checkValidFrom] at hvalid
    rw [closesValue]
    rcases hstep : s.doStep c with ⟨s1, op⟩
    rw [hstep] at hinside hvalid
    rcases hinside with ⟨hop, _⟩ | ⟨hop1, hop2, hps1, htop1, herr1, hst1⟩ | ⟨hop, hps1, hst1, herr1, hc⟩
    · simp only at hop
      subst hop
      simp at hvalid
    · simp only at hop1 hop2 hps1 htop1 herr1 hst1
      have hvalid1 : checkValidFrom s1 cs = true := by
        cases op <;> simp_all
      have hcs : cs ≠ [] := by
        intro hnil
        subst hnil
        have hsp := doStep_inside s1 0x20 hps1 htop1 herr1 hst1
        simp only [checkValidFrom, scanner.eof, herr1, htop1] at hvalid1
        rcases hsp with ⟨h1, h2⟩ | ⟨_, _, _, h2, _, _⟩ | ⟨_, _, _, _, h5⟩
        · simp [h2] at hvalid1
        · simp [h2] at hvalid1
        · rcases h5 with h5 | h5 <;> exact absurd h5 (by decide)
      obtain ⟨b, bs, hbs⟩ := List.exists_cons_of_ne_nil hcs
      have hends1 : endsBracket cs = true := by
        rw [hbs, endsBracket_cons] at hends
        rw [hbs]; exact hends
      have hrec := ih s1 hps1 htop1 herr1 hst1 hvalid1 hends1
      have hopen := stateEndValue_space_of_open s1 hps1
      cases op <;> simp_all
    · simp only at hop hps1 hst1 herr1
      have hclosed := stateEndValue_space_of_closed s1 hps1
      have hvalid1 : checkValidFrom s1 cs = true := by
        rcases hop with hop | hop <;> subst hop <;> simpa using hvalid
      have hcs : cs = [] := by
        by_contra hne
        obtain ⟨b, bs, hbs⟩ := List.exists_cons_of_ne_nil hne
        have hsp := spaces_of_checkValidFrom_ended cs s1 hst1 hvalid1
        have := not_endsBracket_of_spaces cs hsp
        rw [hbs, endsBracket_cons, ← hbs, this] at hends
        exact absurd hends (by simp)
      rcases hop with hop | hop <;> subst hop <;> simp [hclosed, hcs]

theorem closes_of_checkValidFrom_start (d : List UInt8) :
    checkValidFrom scanner.reset d = true → startsBracket d = true → endsBracket d = true →
      closesValue scanner.reset d = true := by
  induction d with
  | nil => intro _ h _; simp [startsBracket, skipSpace] at h
  | cons c cs ih =>
    intro hvalid hstarts hends
    by_cases hc : isSpace c = true
    · have hstep := stateBeginValue_space c hc
      rw [checkValidFrom, hstep] at hvalid
      rw [closesValue, hstep]
      simp only at hvalid ⊢
      have hstarts1 : startsBracket cs = true := by
        simpa [startsBracket, skipSpace, hc] using hstarts
      cases cs with
      | nil => simp [startsBracket, skipSpace] at hstarts1
      | cons b bs =>
        rw [endsBracket_cons] at hends
        exact ih hvalid hstarts1 hends
    · have hbr : c = 0x7B ∨ c = 0x5B := by
        simpa [startsBracket, skipSpace, hc] using hstarts
      have hcs : cs ≠ [] := by
        intro hnil
        subst hnil
        rcases hbr with h | h <;> subst h <;> simp [endsBracket] at hends
      obtain ⟨b, bs, hbs⟩ := List.exists_cons_of_ne_nil hcs
      have hends1 : endsBracket cs = true := by
        rw [hbs, endsBracket_cons] at hends
        rw [hbs]; exact hends
      rcases hbr with h | h
      · subst h
        have hstep : scanner.reset.doStep 0x7B
            = ({ step := .stateBeginStringOrEmpty, endTop := false,
                 parseState := [.parseObjectKey], err := none }, .scanBeginObject) := by decide
        rw [checkValidFrom, hstep] at hvalid
        rw [closesValue, hstep]
        exact closes_of_checkValidFrom_inside cs _ (by simp) rfl rfl (by simp) hvalid hends1
      · subst h
        have hstep : scanner.reset.doStep 0x5B
            = ({ step := .stateBeginValueOrEmpty, endTop := false,
                 parseState := [.parseArrayValue], err := none }, .scanBeginArray) := by decide
        rw [checkValidFrom, hstep] at hvalid
        rw [closesValue, hstep]
        exact closes_of_checkValidFrom_inside cs _ (by simp) rfl rfl (by simp) hvalid hends1

/-- A text that `json.Valid` accepts, that starts with an opening bracket after
leading white space and that ends with a closing bracket, is read by the
stream decoder as one value ending with its last byte. -/
theorem closesDocument_of_Valid (d : List UInt8) (hvalid : Valid d = true)
    (hstarts : startsBracket d = true) (hends : endsBracket d = true) :
    closesDocument d = true :=
  closes_of_checkValidFrom_start d hvalid hstarts hends

theorem closesDocument_of_JSONDocument (d : List UInt8) (h : JSONDocument d = true) :
    closesDocument d = true := by
  simp only [JSONDocument, Bool.and_eq_true] at h
  exact closesDocument_of_Valid d h.1.1 h.1.2 h.2

theorem JSONDocument_iff_closesDocument (d : List UInt8) (hstarts : startsBracket d = true)
    (hends : endsBracket d = true) : JSONDocument d = true ↔ closesDocument d = true := by
  constructor
  · exact closesDocument_of_JSONDocument d
  · intro h
    simp only [JSONDocument, Bool.and_eq_true]
    exact ⟨⟨Valid_of_closesDocument d h, hstarts⟩, hends⟩

/-! ### `readJSONData` on well-formed files -/

/-- C4 fails as stated: the file `{"result":[]}` consists of one syntactically
valid JSON document, and `readJSONData` returns a nil error with no record. -/
theorem readJSONData_skips_valid_document :
    JSONDocument (utf8 "\x7b\"result\":[]\x7d") = true
    ∧ readJSONData (.ok ([utf8 "\x7b\"result\":[]\x7d"].flatten)) 2 = some (.ok [])
    ∧ ([] : List JSONData).length ≠ [utf8 "\x7b\"result\":[]\x7d"].length := by
  decide

/-- C4, amended: if the file is a concatenation of syntactically valid JSON
objects or arrays, white space allowed before each and at the end (the empty
file included), then `readJSONData` returns a nil error and the records of
exactly those documents that `unmarshal` stores without a type error, in file
order; their number is the number of such documents. -/
theorem readJSONData_documents (docs : List (List UInt8)) (ws : List UInt8) (extra : Nat)
    (hdocs : ∀ d ∈ docs, JSONDocument d = true) (hws : ∀ c ∈ ws, isSpace c = true) :
    readJSONData (.ok (docs.flatten ++ ws)) (docs.length + 1 + extra)
      = some (.ok (docs.filterMap decoded))
    ∧ (docs.filterMap decoded).length = (docs.filter fun d => (decoded d).isSome).length := by
  have hcloses : ∀ d ∈ docs, closesDocument d = true :=
    fun d hd => closesDocument_of_JSONDocument d (hdocs d hd)
  constructor
  · simp only [readJSONData, NewDecoder, decodeLoop_documents docs ws hcloses hws [] extra,
      List.nil_append]
  · clear hdocs hcloses
    induction docs with
    | nil => rfl
    | cons d ds ih =>
      cases hd : decoded d <;> simp [List.filterMap_cons, List.filter_cons, hd, ih]

/-- The theorem on documents at the file that holds `{"result":{}}`, the array
`[1]` after a blank and `{}` on a line of its own: the two objects give one
record each, the array is skipped. -/
theorem readJSONData_documents_witness :
    readJSONData
        (.ok ([utf8 "\x7b\"result\":\x7b\x7d\x7d", utf8 " [1]", utf8 "\n\x7b\x7d"].flatten
          ++ utf8 "\n")) (3 + 1 + 0)
      = some (.ok ([utf8 "\x7b\"result\":\x7b\x7d\x7d", utf8 " [1]", utf8 "\n\x7b\x7d"].filterMap
          decoded))
    ∧ ([utf8 "\x7b\"result\":\x7b\x7d\x7d", utf8 " [1]", utf8 "\n\x7b\x7d"].filterMap
          decoded).length = 2 :=
  ⟨(readJSONData_documents
      [utf8 "\x7b\"result\":\x7b\x7d\x7d", utf8 " [1]", utf8 "\n\x7b\x7d"] (utf8 "\n") 0
      (by decide) (by decide)).1, by decide⟩

/-! ### `readJSONData` after a failed read -/

/-- Once the decoder holds an error whose message is not `"EOF"`, the loop of
`readJSONData` never ends: every `Decode` returns that error again. -/
theorem decodeLoop_stuck (dec : Decoder) (e : DecodeError) (herr : dec.err = some e)
    (hne : e.Error ≠ "EOF") :
    ∀ (fuel : Nat) (data : List JSONData), decodeLoop Decoder.Decode fuel dec data = none := by
  intro fuel
  induction fuel with
  | zero => intro data; rfl
  | succ n ih =>
    intro data
    have hd : dec.Decode = (dec, .error e) := by simp [Decoder.Decode, herr]
    rw [decodeLoop, hd]
    simp only [hne, if_false]
    exact ih data

theorem readJSONData_stuck (content : List UInt8) (dec : Decoder) (e : DecodeError)
    (hfirst : (NewDecoder content).Decode = (dec, .error e)) (herr : dec.err = some e)
    (hne : e.Error ≠ "EOF") :
    ∀ fuel : Nat, readJSONData (.ok content) fuel = none := by
  intro fuel
  cases fuel with
  | zero => rfl
  | succ n =>
    simp only [readJSONData, decodeLoop, hfirst, hne, if_false,
      decodeLoop_stuck dec e herr hne n []]

theorem attempts_stuck (dec : Decoder) (e : DecodeError) (herr : dec.err = some e) :
    ∀ n : Nat, attempts Decoder.Decode n dec = List.replicate n (.error e) := by
  intro n
  induction n with
  | zero => rfl
  | succ n ih =>
    have hd : dec.Decode = (dec, .error e) := by simp [Decoder.Decode, herr]
    simp only [attempts, hd, ih, List.replicate_succ]

/-- C5, evaluated on a file whose only document is truncated (`{"result":`):
the first `Decode` fails with `unexpected EOF`, every later `Decode` fails with
that same error, and the loop of `readJSONData` is still running after any
number of iterations, so the function never returns. -/
theorem readJSONData_truncated_never_returns :
    (∀ n : Nat, attempts Decoder.Decode (n + 1) (NewDecoder (utf8 "\x7b\"result\":"))
        = List.replicate (n + 1) (.error .ErrUnexpectedEOF))
    ∧ DecodeError.ErrUnexpectedEOF.Error = "unexpected EOF"
    ∧ ∀ fuel : Nat, readJSONData (.ok (utf8 "\x7b\"result\":")) fuel = none := by
  have hfirst : (NewDecoder (utf8 "\x7b\"result\":")).Decode
      = ({ input := utf8 "\x7b\"result\":", err := some .ErrUnexpectedEOF },
         .error .ErrUnexpectedEOF) := by decide
  refine ⟨fun n => ?_, rfl, ?_⟩
  · rw [attempts, hfirst, attempts_stuck _ _ rfl n]
    rfl
  · exact readJSONData_stuck _ _ _ hfirst rfl (by decide)

/-- C3, evaluated on the file `{"result":oops}{"result":{}}`: the second
document is valid and on its own decodes to one record, but after the syntax
error in the first document every `Decode` returns that error again, and
`readJSONData` never returns, whatever the number of iterations. -/
theorem readJSONData_syntax_error_never_returns :
    JSONDocument (utf8 "\x7b\"result\":\x7b\x7d\x7d") = true
    ∧ readJSONData (.ok (utf8 "\x7b\"result\":\x7b\x7d\x7d")) 2 = some (.ok [JSONData.zero])
    ∧ (NewDecoder (utf8 "\x7b\"result\":oops\x7d" ++ utf8 "\x7b\"result\":\x7b\x7d\x7d")).Decode.2
        = .error (.SyntaxError
            ("invalid character " ++ quoteChar 0x6F ++ " looking for beginning of value"))
    ∧ ∀ fuel : Nat,
        readJSONData
          (.ok (utf8 "\x7b\"result\":oops\x7d" ++ utf8 "\x7b\"result\":\x7b\x7d\x7d")) fuel
        = none := by
  refine ⟨by decide, by decide, by decide, ?_⟩
  have hfirst : (NewDecoder
        (utf8 "\x7b\"result\":oops\x7d" ++ utf8 "\x7b\"result\":\x7b\x7d\x7d")).Decode
      = ({ input := utf8 "\x7b\"result\":oops\x7d" ++ utf8 "\x7b\"result\":\x7b\x7d\x7d",
           err := some (.SyntaxError
            ("invalid character " ++ quoteChar 0x6F ++ " looking for beginning of value")) },
         .error (.SyntaxError
            ("invalid character " ++ quoteChar 0x6F ++ " looking for beginning of value"))) := by
    decide
  exact readJSONData_stuck _ _ _ hfirst rfl (by decide)

/-! ### Decoding a document with missing fields -/

theorem valueString_typed (v : JValue) (t : String) (saved : SavedError)
    (h : storesString v = true) : (valueString v t saved).2 = saved := by
  cases v <;> simp_all [storesString, valueString]

theorem valueInt_typed (v : JValue) (t : Int) (saved : SavedError)
    (h : storesInt v = true) : (valueInt v t saved).2 = saved := by
  cases v with
  | number item =>
    simp only [storesInt, Option.isSome_iff_exists] at h
    obtain ⟨n, hn⟩ := h
    simp [valueInt, hn]
  | _ => simp_all [storesInt, valueInt]

theorem objectFields_typed {α : Type}
    (field : String → JValue → α → SavedError → α × SavedError)
    (member : String → JValue → Bool)
    (hfield : ∀ key v t saved, member key v = true → (field key v t saved).2 = saved)
    (members : List (String × JValue)) :
    ∀ (t : α) (saved : SavedError), (members.all fun m => member m.1 m.2) = true →
      (objectFields field members t saved).2 = saved := by
  induction members with
  | nil => intro t saved _; rfl
  | cons m ms ih =>
    intro t saved h
    simp only [List.all_cons, Bool.and_eq_true] at h
    simp only [objectFields, List.foldl_cons]
    have h1 := hfield m.1 m.2 t saved h.1
    have h2 := ih (field m.1 m.2 t saved).1 (field m.1 m.2 t saved).2 h.2
    simp only [objectFields] at h2
    rw [h2, h1]

theorem valueStruct_typed {α : Type} (GoType : String)
    (field : String → JValue → α → SavedError → α × SavedError)
    (member : String → JValue → Bool)
    (hfield : ∀ key v t saved, member key v = true → (field key v t saved).2 = saved)
    (v : JValue) (t : α) (saved : SavedError) (h : storesStruct member v = true) :
    (valueStruct GoType field v t saved).2 = saved := by
  cases v with
  | object members => exact objectFields_typed field member hfield members t saved h
  | _ => simp_all [storesStruct, valueStruct]

theorem fieldHeaders_typed (key : String) (v : JValue) (t : Headers) (saved : SavedError)
    (h : typedHeaders key v = true) : (fieldHeaders key v t saved).2 = saved := by
  unfold typedHeaders at h
  unfold fieldHeaders
  split_ifs at h ⊢
  · exact valueString_typed _ _ _ h
  · exact valueString_typed _ _ _ h
  · rfl

theorem fieldStatus_typed (key : String) (v : JValue) (t : Status) (saved : SavedError)
    (h : typedStatus key v = true) : (fieldStatus key v t saved).2 = saved := by
  unfold typedStatus at h
  unfold fieldStatus
  split_ifs at h ⊢
  · exact valueInt_typed _ _ _ h
  · rfl

theorem fieldRendered_typed (key : String) (v : JValue) (t : Rendered) (saved : SavedError)
    (h : typedRendered key v = true) : (fieldRendered key v t saved).2 = saved := by
  unfold typedRendered at h
  unfold fieldRendered
  split_ifs at h ⊢
  · exact valueString_typed _ _ _ h
  · rfl

theorem fieldRedirect_typed (key : String) (v : JValue) (t : Redirect) (saved : SavedError)
    (h : typedRedirect key v = true) : (fieldRedirect key v t saved).2 = saved := by
  unfold typedRedirect at h
  unfold fieldRedirect
  split_ifs at h ⊢
  · exact valueStruct_typed _ _ _ fieldHeaders_typed _ _ _ h
  · exact valueStruct_typed _ _ _ fieldStatus_typed _ _ _ h
  · exact valueString_typed _ _ _ h
  · rfl

theorem arrayElems_typed (xs : List JValue) :
    ∀ (backing : List Redirect) (saved : SavedError),
      xs.all (storesStruct typedRedirect) = true → (arrayElems xs backing saved).2 = saved := by
  induction xs with
  | nil => intro backing saved _; rfl
  | cons x xs ih =>
    intro backing saved h
    simp only [List.all_cons, Bool.and_eq_true] at h
    simp only [arrayElems]
    rw [ih _ _ h.2]
    exact valueStruct_typed _ _ _ fieldRedirect_typed _ _ _ h.1

theorem valueRedirects_typed (v : JValue) (t : Slice Redirect) (saved : SavedError)
    (h : storesRedirects v = true) : (valueRedirects v t saved).2 = saved := by
  cases v with
  | array xs =>
    simp only [valueRedirects]
    split
    · rfl
    · exact arrayElems_typed xs _ _ h
  | _ => simp_all [storesRedirects, valueRedirects]

theorem fieldResponse_typed (key : String) (v : JValue) (t : Response) (saved : SavedError)
    (h : typedResponse key v = true) : (fieldResponse key v t saved).2 = saved := by
  unfold typedResponse at h
  unfold fieldResponse
  split_ifs at h ⊢
  · exact valueString_typed _ _ _ h
  · exact valueString_typed _ _ _ h
  · exact valueRedirects_typed _ _ _ h
  · exact valueStruct_typed _ _ _ fieldRendered_typed _ _ _ h
  · exact valueString_typed _ _ _ h
  · exact valueStruct_typed _ _ _ fieldStatus_typed _ _ _ h
  · rfl

theorem fieldData_typed (key : String) (v : JValue) (t : Data) (saved : SavedError)
    (h : typedData key v = true) : (fieldData key v t saved).2 = saved := by
  unfold typedData at h
  unfold fieldData
  split_ifs at h ⊢
  · exact valueStruct_typed _ _ _ fieldResponse_typed _ _ _ h
  · rfl

theorem fieldResult_typed (key : String) (v : JValue) (t : Result) (saved : SavedError)
    (h : typedResult key v = true) : (fieldResult key v t saved).2 = saved := by
  unfold typedResult at h
  unfold fieldResult
  split_ifs at h ⊢
  · exact valueStruct_typed _ _ _ fieldData_typed _ _ _ h
  · rfl

theorem fieldJSONData_typed (key : String) (v : JValue) (t : JSONData) (saved : SavedError)
    (h : typedJSONData key v = true) : (fieldJSONData key v t saved).2 = saved := by
  unfold typedJSONData at h
  unfold fieldJSONData
  split_ifs at h ⊢
  · exact valueStruct_typed _ _ _ fieldResult_typed _ _ _ h
  · rfl

/-- A well-typed document is stored without a type error. -/
theorem unmarshalValue_typed (v : JValue) (t : JSONData) (h : wellTyped v = true) :
    (unmarshalValue v t).2 = none :=
  valueStruct_typed _ _ _ fieldJSONData_typed v t none h

theorem objectFields_invariant {α : Type}
    (field : String → JValue → α → SavedError → α × SavedError) (P : α → Prop)
    (members : List (String × JValue))
    (h : ∀ m ∈ members, ∀ t saved, P t → P (field m.1 m.2 t saved).1) :
    ∀ (t : α) (saved : SavedError), P t → P (objectFields field members t saved).1 := by
  induction members with
  | nil => intro t saved ht; exact ht
  | cons m ms ih =>
    intro t saved ht
    simp only [objectFields, List.foldl_cons]
    have h1 := h m (by simp) t saved ht
    have h2 := ih (fun x hx => h x (by simp [hx])) (field m.1 m.2 t saved).1
      (field m.1 m.2 t saved).2 h1
    simpa only [objectFields] using h2

theorem valueStruct_invariant {α : Type} (GoType : String)
    (field : String → JValue → α → SavedError → α × SavedError) (P : α → Prop) (v : JValue)
    (hm : ∀ members, v = .object members →
      ∀ m ∈ members, ∀ t saved, P t → P (field m.1 m.2 t saved).1)
    (t : α) (saved : SavedError) (ht : P t) :
    P (valueStruct GoType field v t saved).1 := by
  cases v with
  | object members => exact objectFields_invariant field P members (hm members rfl) t saved ht
  | _ => simpa [valueStruct] using ht

theorem mem_field_object (name key : String) (x : JValue) (members : List (String × JValue))
    (hmem : (key, x) ∈ members) (hkey : fieldMatch key name = true) :
    x ∈ (JValue.object members).field name := by
  simp only [JValue.field, List.mem_map, List.mem_filter]
  exact ⟨(key, x), ⟨hmem, hkey⟩, rfl⟩

theorem reach_append (p q : List String) :
    ∀ v : JValue, reach (p ++ q) v = (reach p v).flatMap (reach q) := by
  induction p with
  | nil => intro v; simp [reach]
  | cons n p ih =>
    intro v
    simp only [List.cons_append, reach, List.flatMap_assoc]
    congr 1
    funext x
    exact ih x

theorem reach_single (name : String) (v : JValue) : reach [name] v = v.field name := by
  simp [reach]

theorem mem_reach_cons (name : String) (path : List String) (v x y : JValue)
    (hx : x ∈ v.field name) (hy : y ∈ reach path x) : y ∈ reach (name :: path) v := by
  show y ∈ (v.field name).flatMap (reach path)
  exact List.mem_flatMap.mpr ⟨x, hx, hy⟩

theorem reach_cons_nil (name : String) (path : List String) (v x : JValue)
    (h : reach (name :: path) v = []) (hx : x ∈ v.field name) : reach path x = [] := by
  have hdef : reach (name :: path) v = (v.field name).flatMap (reach path) := rfl
  rw [hdef, List.flatMap_eq_nil_iff] at h
  exact h x hx

theorem fieldData_invariant (Q : Response → Prop) (x : JValue)
    (hx : ∀ y ∈ reach ["response"] x, ∀ t saved, Q t →
      Q (valueStruct "struct response" fieldResponse y t saved).1)
    (t : Data) (saved : SavedError) (ht : Q t.Response) :
    Q (valueStruct "struct data" fieldData x t saved).1.Response := by
  refine valueStruct_invariant _ fieldData (fun t => Q t.Response) x ?_ t saved ht
  intro members hv m hm t saved ht
  unfold fieldData
  split_ifs with hk
  · refine hx m.2 ?_ t.Response saved ht
    rw [reach_single, hv]
    exact mem_field_object _ m.1 m.2 members hm hk
  · exact ht

theorem fieldResult_invariant (Q : Response → Prop) (x : JValue)
    (hx : ∀ y ∈ reach ["data", "response"] x, ∀ t saved, Q t →
      Q (valueStruct "struct response" fieldResponse y t saved).1)
    (t : Result) (saved : SavedError) (ht : Q t.Data.Response) :
    Q (valueStruct "struct result" fieldResult x t saved).1.Data.Response := by
  refine valueStruct_invariant _ fieldResult (fun t => Q t.Data.Response) x ?_ t saved ht
  intro members hv m hm t saved ht
  unfold fieldResult
  split_ifs with hk
  · refine fieldData_invariant Q m.2 ?_ t.Data saved ht
    intro y hy
    exact hx y (mem_reach_cons _ _ x m.2 y
      (by rw [hv]; exact mem_field_object _ m.1 m.2 members hm hk) hy)
  · exact ht

/-- A property of the `Response` struct that every `response` object of the
document keeps is kept by decoding the whole document. -/
theorem unmarshalValue_invariant (Q : Response → Prop) (v : JValue)
    (hv : ∀ y ∈ reach ["result", "data", "response"] v, ∀ t saved, Q t →
      Q (valueStruct "struct response" fieldResponse y t saved).1)
    (t : JSONData) (ht : Q t.Result.Data.Response) :
    Q (unmarshalValue v t).1.Result.Data.Response := by
  unfold unmarshalValue
  refine valueStruct_invariant _ fieldJSONData (fun t => Q t.Result.Data.Response) v ?_ t none ht
  intro members hobj m hm t saved ht
  unfold fieldJSONData
  split_ifs with hk
  · refine fieldResult_invariant Q m.2 ?_ t.Result saved ht
    intro y hy
    exact hv y (mem_reach_cons _ _ v m.2 y
      (by rw [hobj]; exact mem_field_object _ m.1 m.2 members hm hk) hy)
  · exact ht

theorem no_field_of_reach_nil (name : String) (members : List (String × JValue))
    (h : reach [name] (.object members) = []) (m : String × JValue) (hm : m ∈ members) :
    fieldMatch m.1 name = false := by
  rw [reach_single] at h
  by_contra hk
  simp only [Bool.not_eq_false] at hk
  have := mem_field_object name m.1 m.2 members hm hk
  rw [h] at this
  simp at this

theorem response_keeps_URL (a : String) (y : JValue) (hy : reach ["url"] y = [])
    (t : Response) (saved : SavedError) (ht : t.URL = a) :
    (valueStruct "struct response" fieldResponse y t saved).1.URL = a := by
  refine valueStruct_invariant _ fieldResponse (fun t => t.URL = a) y ?_ t saved ht
  intro members hv m hm t saved ht
  have hk := no_field_of_reach_nil "url" members (hv ▸ hy) m hm
  unfold fieldResponse
  simp only [hk, Bool.false_eq_true, if_false]
  split_ifs <;> exact ht

theorem response_keeps_Title (a : String) (y : JValue) (hy : reach ["title"] y = [])
    (t : Response) (saved : SavedError) (ht : t.Title = a) :
    (valueStruct "struct response" fieldResponse y t saved).1.Title = a := by
  refine valueStruct_invariant _ fieldResponse (fun t => t.Title = a) y ?_ t saved ht
  intro members hv m hm t saved ht
  have hk := no_field_of_reach_nil "title" members (hv ▸ hy) m hm
  unfold fieldResponse
  simp only [hk, Bool.false_eq_true, if_false]
  split_ifs <;> exact ht

theorem response_keeps_Path (a : String) (y : JValue) (hy : reach ["path"] y = [])
    (t : Response) (saved : SavedError) (ht : t.Path = a) :
    (valueStruct "struct response" fieldResponse y t saved).1.Path = a := by
  refine valueStruct_invariant _ fieldResponse (fun t => t.Path = a) y ?_ t saved ht
  intro members hv m hm t saved ht
  have hk := no_field_of_reach_nil "path" members (hv ▸ hy) m hm
  unfold fieldResponse
  simp only [hk, Bool.false_eq_true, if_false]
  split_ifs <;> exact ht

theorem response_keeps_Screenshot (a : String) (y : JValue)
    (hy : reach ["rendered", "screenshot"] y = [])
    (t : Response) (saved : SavedError) (ht : t.Rendered.Screenshot = a) :
    (valueStruct "struct response" fieldResponse y t saved).1.Rendered.Screenshot = a := by
  refine valueStruct_invariant _ fieldResponse (fun t => t.Rendered.Screenshot = a) y ?_ t saved ht
  intro members hv m hm t saved ht
  unfold fieldResponse
  split_ifs with h1 h2 h3 h4 h5 h6 <;> try exact ht
  refine valueStruct_invariant _ fieldRendered (fun r => r.Screenshot = a) m.2 ?_ t.Rendered saved ht
  intro ms hobj k hkm r saved hr
  have hnil : reach ["screenshot"] (.object ms) = [] := by
    rw [← hobj]
    exact reach_cons_nil _ _ y m.2 hy (by rw [hv]; exact mem_field_object _ m.1 m.2 members hm h4)
  have hk := no_field_of_reach_nil "screenshot" ms hnil k hkm
  unfold fieldRendered
  simp only [hk, Bool.false_eq_true, if_false]
  exact hr

theorem response_keeps_StatusCode (a : Int) (y : JValue)
    (hy : reach ["status", "code"] y = [])
    (t : Response) (saved : SavedError) (ht : t.Status.Code = a) :
    (valueStruct "struct response" fieldResponse y t saved).1.Status.Code = a := by
  refine valueStruct_invariant _ fieldResponse (fun t => t.Status.Code = a) y ?_ t saved ht
  intro members hv m hm t saved ht
  unfold fieldResponse
  split_ifs with h1 h2 h3 h4 h5 h6 <;> try exact ht
  refine valueStruct_invariant _ fieldStatus (fun r => r.Code = a) m.2 ?_ t.Status saved ht
  intro ms hobj k hkm r saved hr
  have hnil : reach ["code"] (.object ms) = [] := by
    rw [← hobj]
    exact reach_cons_nil _ _ y m.2 hy (by rw [hv]; exact mem_field_object _ m.1 m.2 members hm h6)
  have hk := no_field_of_reach_nil "code" ms hnil k hkm
  unfold fieldStatus
  simp only [hk, Bool.false_eq_true, if_false]
  exact hr

theorem response_keeps_no_redirects (y : JValue)
    (hy : ∀ z ∈ reach ["redirects"] y, z.isArray = false)
    (t : Response) (saved : SavedError) (ht : t.Redirects.elems = []) :
    (valueStruct "struct response" fieldResponse y t saved).1.Redirects.elems = [] := by
  refine valueStruct_invariant _ fieldResponse (fun t => t.Redirects.elems = []) y ?_ t saved ht
  intro members hv m hm t saved ht
  unfold fieldResponse
  split_ifs with h1 h2 h3 h4 h5 h6 <;> try exact ht
  have hz := hy m.2 (by rw [reach_single, hv]; exact mem_field_object _ m.1 m.2 members hm h3)
  cases hm2 : m.2 <;> simp_all [valueRedirects, JValue.isArray]

/-- C8 fails as stated: the document `{"result":{"data":{"response":{"title":7}}}}`
is syntactically valid and has no `redirects` array, but decoding it returns a
type error and `readJSONData` yields no record for it.  The same holds when
`status.code` is a JSON number that is not a 64-bit integer literal (`200.0`,
`9223372036854775808`), and when the document is an array instead of an
object. -/
theorem decode_fails_without_redirects :
    JSONDocument (utf8 "\x7b\"result\":\x7b\"data\":\x7b\"response\":\x7b\"title\":7\x7d\x7d\x7d\x7d") = true
    ∧ (reach ["result", "data", "response", "redirects"]
        (parseJSON (utf8 "\x7b\"result\":\x7b\"data\":\x7b\"response\":\x7b\"title\":7\x7d\x7d\x7d\x7d"))).length = 0
    ∧ (NewDecoder (utf8 "\x7b\"result\":\x7b\"data\":\x7b\"response\":\x7b\"title\":7\x7d\x7d\x7d\x7d")).Decode.2
        = .error (.UnmarshalType { Value := "number", GoType := "string" })
    ∧ readJSONData (.ok (utf8 "\x7b\"result\":\x7b\"data\":\x7b\"response\":\x7b\"title\":7\x7d\x7d\x7d\x7d")) 2
        = some (.ok [])
    ∧ JSONDocument (utf8 "\x7b\"result\":\x7b\"data\":\x7b\"response\":\x7b\"status\":\x7b\"code\":200.0\x7d\x7d\x7d\x7d\x7d") = true
    ∧ (reach ["result", "data", "response", "redirects"]
        (parseJSON (utf8 "\x7b\"result\":\x7b\"data\":\x7b\"response\":\x7b\"status\":\x7b\"code\":200.0\x7d\x7d\x7d\x7d\x7d"))).length = 0
    ∧ (NewDecoder (utf8 "\x7b\"result\":\x7b\"data\":\x7b\"response\":\x7b\"status\":\x7b\"code\":200.0\x7d\x7d\x7d\x7d\x7d")).Decode.2
        = .error (.UnmarshalType { Value := "number 200.0", GoType := "int" })
    ∧ JSONDocument (utf8 "\x7b\"result\":\x7b\"data\":\x7b\"response\":\x7b\"status\":\x7b\"code\":9223372036854775808\x7d\x7d\x7d\x7d\x7d") = true
    ∧ (reach ["result", "data", "response", "redirects"]
        (parseJSON (utf8 "\x7b\"result\":\x7b\"data\":\x7b\"response\":\x7b\"status\":\x7b\"code\":9223372036854775808\x7d\x7d\x7d\x7d\x7d"))).length = 0
    ∧ (NewDecoder (utf8 "\x7b\"result\":\x7b\"data\":\x7b\"response\":\x7b\"status\":\x7b\"code\":9223372036854775808\x7d\x7d\x7d\x7d\x7d")).Decode.2
        = .error (.UnmarshalType { Value := "number 9223372036854775808", GoType := "int" })
    ∧ JSONDocument (utf8 "[]") = true
    ∧ (reach ["result", "data", "response", "redirects"] (parseJSON (utf8 "[]"))).length = 0
    ∧ (NewDecoder (utf8 "[]")).Decode.2
        = .error (.UnmarshalType { Value := "array", GoType := "main.JSONData" }) := by
  refine ⟨by decide, by decide, by decide, by decide, by decide, by decide, by decide,
    by decide, by decide, by decide, by decide, by decide, by decide⟩

/-- C8, amended: take a document that is a JSON object, that has no `redirects`
array (the key is absent or holds `null`), and in which every recognised field
that is present holds a value the decoder can store in it: an object or `null`
for `result`, `data`, `response`, `rendered` and `status`, a string or `null`
for `url`, `title`, `path` and `screenshot`, and for `status.code` `null` or an
integer literal without fraction or exponent that fits in 64 bits (this is
`wellTyped`).  Then decoding succeeds without error, the chain is empty and the
row's `Redirects` text is the empty string, and every recognised field that
the document does not hold keeps its zero value (empty string, 0). -/
theorem unmarshal_missing_fields (v : JValue)
    (htyped : wellTyped v = true)
    (hredirects : ∀ z ∈ reach ["result", "data", "response", "redirects"] v,
      z.isArray = false) :
    (unmarshalValue v JSONData.zero).2 = none
    ∧ (∀ document : List UInt8, JSONDocument document = true → parseJSON document = v →
        (NewDecoder document).Decode.2 = .ok (unmarshalValue v JSONData.zero).1)
    ∧ (unmarshalValue v JSONData.zero).1.Result.Data.Response.Redirects.elems = []
    ∧ (mainRows [(unmarshalValue v JSONData.zero).1]).map (fun row => row.Redirects) = [""]
    ∧ (reach ["result", "data", "response", "url"] v = [] →
        (unmarshalValue v JSONData.zero).1.Result.Data.Response.URL = "")
    ∧ (reach ["result", "data", "response", "title"] v = [] →
        (unmarshalValue v JSONData.zero).1.Result.Data.Response.Title = "")
    ∧ (reach ["result", "data", "response", "path"] v = [] →
        (unmarshalValue v JSONData.zero).1.Result.Data.Response.Path = "")
    ∧ (reach ["result", "data", "response", "rendered", "screenshot"] v = [] →
        (unmarshalValue v JSONData.zero).1.Result.Data.Response.Rendered.Screenshot = "")
    ∧ (reach ["result", "data", "response", "status", "code"] v = [] →
        (unmarshalValue v JSONData.zero).1.Result.Data.Response.Status.Code = 0) := by
  have hnone := unmarshalValue_typed v JSONData.zero htyped
  have hsplit : ∀ q : List String, reach (["result", "data", "response"] ++ q) v
      = (reach ["result", "data", "response"] v).flatMap (reach q) :=
    fun q => reach_append _ q v
  have hnil : ∀ q : List String, reach (["result", "data", "response"] ++ q) v = [] →
      ∀ y ∈ reach ["result", "data", "response"] v, reach q y = [] := by
    intro q h
    rw [hsplit, List.flatMap_eq_nil_iff] at h
    exact h
  have helems : (unmarshalValue v JSONData.zero).1.Result.Data.Response.Redirects.elems = [] := by
    refine unmarshalValue_invariant (fun r => r.Redirects.elems = []) v ?_ JSONData.zero rfl
    intro y hy t saved ht
    refine response_keeps_no_redirects y ?_ t saved ht
    intro z hz
    refine hredirects z ?_
    have := hsplit ["redirects"]
    simp only [List.cons_append, List.nil_append] at this
    rw [this]
    exact List.mem_flatMap.mpr ⟨y, hy, hz⟩
  refine ⟨hnone, ?_, helems, ?_, ?_, ?_, ?_, ?_, ?_⟩
  · intro document hdoc hparse
    rw [Decode_document document (closesDocument_of_JSONDocument document hdoc)]
    simp only [unmarshal, hparse, hnone]
  · simp [mainRows, helems, formatRedirects]
  · intro h
    exact unmarshalValue_invariant (fun r => r.URL = "") v
      (fun y hy t saved ht => response_keeps_URL "" y (hnil ["url"] h y hy) t saved ht)
      JSONData.zero rfl
  · intro h
    exact unmarshalValue_invariant (fun r => r.Title = "") v
      (fun y hy t saved ht => response_keeps_Title "" y (hnil ["title"] h y hy) t saved ht)
      JSONData.zero rfl
  · intro h
    exact unmarshalValue_invariant (fun r => r.Path = "") v
      (fun y hy t saved ht => response_keeps_Path "" y (hnil ["path"] h y hy) t saved ht)
      JSONData.zero rfl
  · intro h
    exact unmarshalValue_invariant (fun r => r.Rendered.Screenshot = "") v
      (fun y hy t saved ht =>
        response_keeps_Screenshot "" y (hnil ["rendered", "screenshot"] h y hy) t saved ht)
      JSONData.zero rfl
  · intro h
    exact unmarshalValue_invariant (fun r => r.Status.Code = 0) v
      (fun y hy t saved ht =>
        response_keeps_StatusCode 0 y (hnil ["status", "code"] h y hy) t saved ht)
      JSONData.zero rfl

/-- The theorem on missing fields at a document that holds only `url` and
`status.code`: decoding gives the record with these two fields set and every
other field zero. -/
theorem unmarshal_missing_fields_witness :
    (NewDecoder (utf8 "\x7b\"result\":\x7b\"data\":\x7b\"response\":\x7b\"url\":\"u\",\"status\":\x7b\"code\":200\x7d\x7d\x7d\x7d\x7d")).Decode.2
      = .ok { Result := { Data := { Response :=
          { URL := "u", Title := "", Redirects := { elems := [], spare := [] },
            Rendered := { Screenshot := "" }, Path := "", Status := { Code := 200 } } } } } := by
  have h := unmarshal_missing_fields
    (parseJSON (utf8 "\x7b\"result\":\x7b\"data\":\x7b\"response\":\x7b\"url\":\"u\",\"status\":\x7b\"code\":200\x7d\x7d\x7d\x7d\x7d"))
    (by decide) (by decide)
  rw [h.2.1 _ (by decide) rfl]
  decide

/-! ### `generateHTML` -/

theorem htmlReplacement_no_markup (r c : Char) (hc : c ∈ (htmlReplacement r).data) :
    c ∉ markup := by
  unfold htmlReplacement at hc
  split_ifs at hc with h0 h1 h2 h3 h4 h5 h6
  · revert c; decide
  · revert c; decide
  · revert c; decide
  · revert c; decide
  · revert c; decide
  · revert c; decide
  · revert c; decide
  · simp only [String.singleton, String.data_push, List.nil_append, List.mem_singleton] at hc
    subst hc
    simp only [markup, List.mem_cons, List.mem_singleton, not_or, List.not_mem_nil, not_false_iff,
      and_true]
    refine ⟨fun h => h5 ?_, fun h => h6 ?_, fun h => h1 ?_, fun h => h3 ?_⟩
    all_goals (rw [h]; rfl)

theorem htmlReplacer_no_markup (s : String) (c : Char) (hc : c ∈ (htmlReplacer s).data) :
    c ∉ markup := by
  simp only [htmlReplacer, List.mem_flatMap] at hc
  obtain ⟨r, _, hr⟩ := hc
  exact htmlReplacement_no_markup r c hr

theorem htmlReplacer_count (s : String) (c : Char) (hc : c ∈ markup) :
    (htmlReplacer s).data.count c = 0 :=
  List.count_eq_zero.mpr fun h => htmlReplacer_no_markup s c h hc

theorem executeRow_count (row : DataTableRow) (c : Char) (hc : c ∈ markup) :
    (executeRow row).data.count c = rowTextCount c := by
  simp only [executeRow, rcdataEscaper, attrEscaper, htmlEscaper, String.data_append,
    List.count_append, htmlReplacer_count _ c hc, rowTextCount]
  omega

theorem generateHTML_foldl_data (rows : List DataTableRow) (init : String) :
    (rows.foldl (fun out row => out ++ executeRow row) init).data
      = init.data ++ (rows.map fun row => (executeRow row).data).flatten := by
  induction rows generalizing init with
  | nil => simp
  | cons r rs ih => simp [List.foldl_cons, ih, String.data_append, List.append_assoc]

theorem generateHTML_data (rows : List DataTableRow) :
    (generateHTML rows).data
      = templateHead.data ++ (rows.map fun row => (executeRow row).data).flatten
          ++ templateTail.data := by
  simp only [generateHTML, String.data_append, generateHTML_foldl_data]

/-- The number of occurrences of a markup character in the generated document
does not depend on what the rows hold. -/
theorem generateHTML_count (rows : List DataTableRow) (c : Char) (hc : c ∈ markup) :
    (generateHTML rows).data.count c
      = templateHead.data.count c + rows.length * rowTextCount c + templateTail.data.count c := by
  rw [generateHTML_data]
  simp only [List.count_append]
  congr 2
  induction rows with
  | nil => simp
  | cons r rs ih =>
    simp only [List.map_cons, List.flatten_cons, List.count_append, ih,
      executeRow_count r c hc, List.length_cons]
    ring

/-- C7: in the document `generateHTML` writes, every `<`, `>`, `"` and
apostrophe comes from the text of the template itself, whatever the rows hold:
what the escapers put in for `URL`, `Title`, `Redirects`, `Path`, `Screenshot`
and `StatusCode` contains none of these characters, so no field value can close
its `<textarea>` or attribute or open an element; a title `<script>alert(1)</script>`
is written as `&lt;script&gt;alert(1)&lt;/script&gt;`. -/
theorem generateHTML_escapes_fields :
    (∀ (rows : List DataTableRow) (c : Char), c ∈ markup →
      (generateHTML rows).data.count c
        = templateHead.data.count c + rows.length * rowTextCount c + templateTail.data.count c)
    ∧ (∀ (row : DataTableRow) (c : Char),
        (c ∈ (rcdataEscaper row.URL).data ∨ c ∈ (rcdataEscaper row.Title).data
          ∨ c ∈ (rcdataEscaper row.Redirects).data ∨ c ∈ (rcdataEscaper row.Path).data
          ∨ c ∈ (attrEscaper (urlNormalizer (urlFilter row.URL))).data
          ∨ c ∈ (attrEscaper (urlNormalizer (urlFilter row.Screenshot))).data
          ∨ c ∈ (htmlEscaper (sprintInt row.StatusCode)).data) → c ∉ markup)
    ∧ rcdataEscaper "<script>alert(1)</script>" = "&lt;script&gt;alert(1)&lt;/script&gt;"
    ∧ generateHTML
        [{ URL := "u", Title := "<script>alert(1)</script>", Redirects := "", Screenshot := "s",
           Path := "p", StatusCode := 200 }]
      = templateHead
        ++ (rowText0 ++ "u" ++ rowText1 ++ "&lt;script&gt;alert(1)&lt;/script&gt;" ++ rowText2
            ++ "" ++ rowText3 ++ "u" ++ rowText4 ++ "s" ++ rowText5 ++ "p" ++ rowText6 ++ "200"
            ++ rowText7)
        ++ templateTail := by
  refine ⟨generateHTML_count, ?_, by decide, ?_⟩
  · intro row c h
    rcases h with h | h | h | h | h | h | h <;> exact htmlReplacer_no_markup _ c h
  · have h1 : rcdataEscaper "u" = "u" := by decide
    have h2 : rcdataEscaper "<script>alert(1)</script>"
        = "&lt;script&gt;alert(1)&lt;/script&gt;" := by decide
    have h3 : rcdataEscaper "" = "" := by decide
    have h4 : attrEscaper (urlNormalizer (urlFilter "u")) = "u" := by decide
    have h5 : attrEscaper (urlNormalizer (urlFilter "s")) = "s" := by decide
    have h6 : rcdataEscaper "p" = "p" := by decide
    have h7 : htmlEscaper (sprintInt 200) = "200" := by decide
    simp only [generateHTML, List.foldl, executeRow, h1, h2, h3, h4, h5, h6, h7,
      String.append_assoc]

end Create
